import Mathlib

/-!
Shallow embedding of the CuttleFS core (block manager, page cache,
fsync policies, filesystem facade) and proofs about the claims of its
specification.

Conventions of the embedding:
* Byte strings are `List Nat`; Python dicts are association lists with
  Python's insertion-order semantics (`Dict`); Python sets of file
  descriptors are `List Nat` used up to membership (`PySet`).
* Mutable objects are threaded explicitly; operations that can raise a
  Python exception return `Except PyErr _` (state mutated before the
  raise is discarded by the model: no claim depends on it).
* `while` loops are embedded as fuel-indexed structural recursions; the
  fuel passed at every call site is a proven upper bound on the number
  of iterations, so the embedded loop runs to the same completion as
  the source loop.
* Pages are aliased in the source (the same `Page` object sits in
  `minode.offset_to_page` and in the `pages` lists handed to the fsync
  policies); we model a page list by the list of its page-aligned
  offsets and the policies read and write the page through
  `offset_to_page`, which is exactly the aliasing the source exhibits.
-/

/-- Modelled from the spec: `src/cuttlefs/constants.py` is imported by the
source (`from .constants import PAGE_SZ, SECTOR_SZ`) but is absent from the
sources given; spec section 3 fixes PAGE_SIZE = 4096. -/
def PAGE_SZ : Nat := 4096

/-- Modelled from the spec: spec section 3 fixes SECTOR_SIZE = 512. -/
def SECTOR_SZ : Nat := 512

/-- Errno values used by the source (`errno.EIO`). -/
def Errno.eio : Int := 5

/-- Python exceptions that the embedded code can raise. -/
inductive PyErr where
  | attributeError
  | keyError
  | fileNotFoundError
  deriving DecidableEq, Repr

/-- A Python dict: an association list with insertion order preserved,
first-match lookup, in-place update of an existing key, append of a new
key. -/
structure Dict (α β : Type) where
  entries : List (α × β)
  deriving DecidableEq, Repr

namespace Dict

variable {α β : Type} [DecidableEq α]

def lookupList : List (α × β) → α → Option β
  | [], _ => none
  | e :: rest, k => if e.1 = k then some e.2 else lookupList rest k

def lookup (d : Dict α β) (k : α) : Option β :=
  lookupList d.entries k

def setList : List (α × β) → α → β → List (α × β)
  | [], k, v => [(k, v)]
  | e :: rest, k, v => if e.1 = k then (k, v) :: rest else e :: setList rest k v

/-- `d[k] = v` -/
def set (d : Dict α β) (k : α) (v : β) : Dict α β :=
  ⟨setList d.entries k v⟩

/-- `d.pop(k, None)`: removes the key if present (keys of a Python dict
are unique, so removing every matching entry is the same operation). -/
def pop (d : Dict α β) (k : α) : Dict α β :=
  ⟨d.entries.filter (fun e => decide (e.1 ≠ k))⟩

def contains (d : Dict α β) (k : α) : Bool :=
  (d.lookup k).isSome

def valuesList (d : Dict α β) : List β :=
  d.entries.map (fun e => e.2)

def keysList (d : Dict α β) : List α :=
  d.entries.map (fun e => e.1)

def empty : Dict α β := ⟨[]⟩

end Dict

-- A Python set of small naturals (file descriptors), represented as a
-- list used up to membership.
namespace PySet

def add (s : List Nat) (x : Nat) : List Nat :=
  if x ∈ s then s else s ++ [x]

def discard (s : List Nat) (x : Nat) : List Nat :=
  s.filter (fun y => decide (y ≠ x))

/-- `s.update(t)` -/
def update (s t : List Nat) : List Nat :=
  t.foldl add s

end PySet

/-! ### src/cuttlefs/failseq.py -/

/-- `FailSequence`: `seq` is the validated pattern, `idx` the mutable
position (initialized to -1).  `termchar` and `end_idx` are computed in
`__init__` from `seq` and never change; we derive them from `seq`. -/
structure FailSeq where
  seq : List Char
  idx : Int
  deriving DecidableEq, Repr

namespace FailSeq

def termchar (f : FailSeq) : Char :=
  (f.seq.getLastD 'W').toLower

def end_idx (f : FailSeq) : Int :=
  (f.seq.length : Int) - 1

/-- `FailSequence.next`: advance the index; past the pre-terminal prefix
return the sticky lowercase terminal outcome. -/
def next (f : FailSeq) : Char × FailSeq :=
  let idx' := f.idx + 1
  let f' : FailSeq := { f with idx := idx' }
  if idx' ≥ f.end_idx then (f.termchar, f')
  else (f.seq.getD idx'.toNat ' ', f')

/-- The state after one `next()` call. -/
def advance (f : FailSeq) : FailSeq :=
  (f.next).2

end FailSeq

/-! ### src/cuttlefs/block_manager.py -/

/-- `BlockManager` state.  The backing file is modelled as a map from a
sector-aligned absolute byte offset to the 512-byte chunk stored there;
absent chunks read back as zeroes (file holes / the initial truncate). -/
structure BlockManager where
  size : Nat
  free_list : List Nat
  largest_block_num : Nat
  faulty_paths : Dict String (Dict Nat FailSeq)
  backing : Dict Nat (List Nat)
  deriving DecidableEq, Repr

namespace BlockManager

/-- `alloc_block`: pop the last element of the free list, else take the
next fresh block number. -/
def alloc_block (bm : BlockManager) : Nat × BlockManager :=
  if bm.free_list.length > 0 then
    (bm.free_list.getLastD 0, { bm with free_list := bm.free_list.dropLast })
  else
    (bm.largest_block_num,
      { bm with largest_block_num := bm.largest_block_num + 1 })

/-- `dealloc_block`: append to the free list, no validation. -/
def dealloc_block (bm : BlockManager) (block : Nat) : BlockManager :=
  { bm with free_list := bm.free_list ++ [block] }

/-- One 512-byte chunk of the backing file at an absolute byte offset. -/
def readSector (bm : BlockManager) (off : Nat) : List Nat :=
  (bm.backing.lookup off).getD (List.replicate SECTOR_SZ 0)

/-- `bread(bnum)`: positional read of PAGE_SZ bytes at `bnum * PAGE_SZ`
(the source's single `os.pread`, assembled from the sector chunks; the
sanity `assert offset < self.size` is elided). -/
def bread (bm : BlockManager) (bnum : Nat) : List Nat :=
  ((List.range (PAGE_SZ / SECTOR_SZ)).map
    (fun i => bm.readSector (bnum * PAGE_SZ + i * SECTOR_SZ))).flatten

/-- Per-sector body of the `bwrite` loop.  The running state is
`(success, bm, written)` where `written` records the sector indices
whose physical write was performed (a ghost trace used only by the
theorems). -/
def bwriteStep (bnum : Nat) (data : List Nat) (path : String) (offset : Nat)
    (st : Bool × BlockManager × List Nat) (i : Nat) :
    Bool × BlockManager × List Nat :=
  let success := st.1
  let bm := st.2.1
  let written := st.2.2
  let sec_logical := offset + i * SECTOR_SZ
  -- look up the fault oracle and advance it (the source calls seq.next(),
  -- mutating the oracle in place even when the outcome is 'x')
  let lookedUp : Option FailSeq :=
    match bm.faulty_paths.lookup path with
    | none => none
    | some m => m.lookup sec_logical
  let step : Bool × Bool × BlockManager :=
    match lookedUp with
    | none => (true, success, bm)
    | some s =>
      let (c, s') := s.next
      let fp :=
        match bm.faulty_paths.lookup path with
        | none => bm.faulty_paths
        | some m => bm.faulty_paths.set path (m.set sec_logical s')
      let bm' := { bm with faulty_paths := fp }
      if c = 'x' then (false, false, bm') else (true, success, bm')
  let write_sector := step.1
  let success' := step.2.1
  let bm₁ := step.2.2
  if write_sector then
    let chunk := (data.drop (i * SECTOR_SZ)).take SECTOR_SZ
    let bm₂ := { bm₁ with
      backing := bm₁.backing.set (bnum * PAGE_SZ + i * SECTOR_SZ) chunk }
    (success', bm₂, written ++ [i])
  else
    (success', bm₁, written)

/-- The `if bfile_offset >= self.size: self.size = bfile_offset` tail of
`bwrite` (after the loop, `bfile_offset` is the end of the block). -/
def sizeBump (bm : BlockManager) (bfile_offset : Nat) : BlockManager :=
  if bfile_offset ≥ bm.size then { bm with size := bfile_offset } else bm

/-- `bwrite(bnum, data, ref)`: write `data` sector by sector; per sector,
consult the fault oracle keyed by `(path, logical offset)`; an 'x'
outcome skips that sector's physical write and fails the call.
`assert len(data) == PAGE_SZ` holds at every call site and is carried as
a hypothesis by the theorems.  Returns `(success, bm', written)`. -/
def bwrite (bm : BlockManager) (bnum : Nat) (data : List Nat)
    (ref : String × Nat) : Bool × BlockManager × List Nat :=
  let r := (List.range (PAGE_SZ / SECTOR_SZ)).foldl
    (bwriteStep bnum data ref.1 ref.2) (true, bm, [])
  (r.1, sizeBump r.2.1 (bnum * PAGE_SZ + PAGE_SZ), r.2.2)

/-- The fault oracle installed at `faulty_paths[path][k]`, if any. -/
def oracleAt (bm : BlockManager) (path : String) (k : Nat) :
    Option FailSeq :=
  match bm.faulty_paths.lookup path with
  | none => none
  | some m => m.lookup k

/-- The outcome the oracle installed for sector `i` of a `bwrite` at
`(path, offset)` would yield, if installed. -/
def sectorOutcome (bm : BlockManager) (path : String) (offset : Nat)
    (i : Nat) : Option Char :=
  (bm.oracleAt path (offset + i * SECTOR_SZ)).map (fun s => (s.next).1)

end BlockManager

/-! ### src/cuttlefs/page.py -/

/-- A buffered page: 4096-byte content plus dirty flag. -/
structure Page where
  inode : Nat
  offset : Nat
  content : List Nat
  flag_dirty : Bool
  deriving DecidableEq, Repr

/-- The on-disk per-file metadata record (the JSON written by
`sync_meta` and read back by `MemInode.__init__` and the btrfs revert;
the decimal-string round-trip of the offset keys is the identity, so the
keys are kept as naturals). -/
structure MetaRec where
  size : Nat
  atime : Int
  mtime : Int
  offset_to_block : Dict Nat Nat
  deriving DecidableEq, Repr

/-- In-memory inode.  `atime`/`mtime` are modelled as integers (the
claims only move them around, never compute with them). -/
structure MemInode where
  inode : Nat
  path : String
  realpath : String
  offset_to_block : Dict Nat Nat
  atime : Int
  mtime : Int
  size : Nat
  offset_to_page : Dict Nat Page
  deriving DecidableEq, Repr

namespace MemInode

/-- `get_dirty_pages`: the source returns the dirty `Page` objects from
`offset_to_page.values()`; pages being modelled by their offset key,
this returns the offsets of the dirty pages, in map order. -/
def dirty_page_offsets (m : MemInode) : List Nat :=
  (m.offset_to_page.entries.filter (fun e => e.2.flag_dirty)).map (fun e => e.1)

end MemInode

/-- Which fsync policy class the file system was mounted with
(`SUPPORTED_FSYNC_CLASSES`). -/
inductive FsyncPolicy where
  | ext4Ordered
  | xfs
  | ext4Data
  | btrfs
  deriving DecidableEq, Repr

/-- The whole file-system state: the `CuttleFS` facade object, the
fsync policy object's bookkeeping (`failed_inodes_fd_map`), and the
host file system (metadata records and host inode numbers keyed by the
real path; the facade's `realpath` translation is modelled as the
identity).  `now` stands for `time.time()`. -/
structure FS where
  bm : BlockManager
  hostMeta : Dict String MetaRec
  hostIno : Dict String Nat
  page_cache : Dict Nat MemInode
  fd_info_map : Dict Nat (Nat × String)
  inode_to_open_fds_map : Dict Nat (List Nat)
  sync_fds : List Nat
  failed_inodes_fd_map : Dict Nat (List Nat)
  policy : FsyncPolicy
  now : Int
  deriving DecidableEq, Repr

/-! ### src/cuttlefs/fsyncs.py: shared notification bookkeeping -/

namespace GenericFsync

/-- `_should_notify_fd` -/
def should_notify_fd (fs : FS) (fd ino : Nat) : Bool :=
  match fs.failed_inodes_fd_map.lookup ino with
  | none => false
  | some failed_fds =>
    if failed_fds.length = 0 then true
    else decide (fd ∈ failed_fds)

/-- `_add_fds_to_notify`: `setdefault` installs an (possibly empty)
entry for the inode, then unions in every currently open fd. -/
def add_fds_to_notify (fs : FS) (ino : Nat) : FS :=
  let all_open_fds := (fs.inode_to_open_fds_map.lookup ino).getD []
  let fd_set := (fs.failed_inodes_fd_map.lookup ino).getD []
  { fs with failed_inodes_fd_map :=
      fs.failed_inodes_fd_map.set ino (PySet.update fd_set all_open_fds) }

/-- `_mark_fd_notified`: discard the fd; drop the entry when the set
empties through notification (`pop` of a missing key is a no-op). -/
def mark_fd_notified (fs : FS) (fd ino : Nat) : FS :=
  match fs.failed_inodes_fd_map.lookup ino with
  | none => fs
  | some failed_fds =>
    let s' := PySet.discard failed_fds fd
    if s'.length = 0 then
      { fs with failed_inodes_fd_map := fs.failed_inodes_fd_map.pop ino }
    else
      { fs with failed_inodes_fd_map := fs.failed_inodes_fd_map.set ino s' }

/-- `on_close_fd`: discard the fd but keep the (possibly now empty)
entry, so that the next fd opened on the inode still sees the failure. -/
def on_close_fd (fs : FS) (fd ino : Nat) : FS :=
  match fs.failed_inodes_fd_map.lookup ino with
  | none => fs
  | some failed_fds =>
    { fs with failed_inodes_fd_map :=
        fs.failed_inodes_fd_map.set ino (PySet.discard failed_fds fd) }

end GenericFsync

/-- Ghost trace of the events of `GenericFsync.sync_pages`, used to
state the dirty-bit/bwrite ordering claims. -/
inductive SyncEv where
  | clearDirty (off : Nat)
  | bwriteAttempt (off : Nat) (ok : Bool)
  deriving DecidableEq, Repr

/-- Whether a trace event is a failed bwrite attempt. -/
def SyncEv.evOk : SyncEv → Bool
  | .clearDirty _ => true
  | .bwriteAttempt _ ok => ok

namespace GenericFsync

/-- One dirty-page iteration of the `GenericFsync.sync_pages` loop:
allocate a block if none is mapped, clear the dirty flag (before the
write attempt — deliberate in the source), then attempt the block
write.  Returns `(bsuccess, bm', minode')`. -/
def syncPageStep (bm : BlockManager) (minode : MemInode) (off : Nat)
    (p : Page) : Bool × BlockManager × MemInode :=
  let alloced : Nat × BlockManager × MemInode :=
    match minode.offset_to_block.lookup off with
    | some b => (b, bm, minode)
    | none =>
      let (b, bm') := bm.alloc_block
      (b, bm', { minode with
        offset_to_block := minode.offset_to_block.set off b })
  let block := alloced.1
  let bm₁ := alloced.2.1
  let minode₁ := alloced.2.2
  -- the dirty bit is cleared before the write is attempted
  let p₁ : Page := { p with flag_dirty := false }
  let minode₂ := { minode₁ with
    offset_to_page := minode₁.offset_to_page.set off p₁ }
  let w := bm₁.bwrite block p₁.content (minode.path, off)
  (w.1, w.2.1, minode₂)

/-- `GenericFsync.sync_pages`: for each page in the list that is dirty,
run `syncPageStep`; a failure sets the EIO result but does not stop the
loop.  The pages are given by their offsets; a page absent from
`offset_to_page` is skipped (unreachable at the call sites, where every
page handed in is buffered).  Also returns the ghost event trace. -/
def sync_pages (bm : BlockManager) (minode : MemInode) :
    List Nat → Int × BlockManager × MemInode × List SyncEv
  | [] => (0, bm, minode, [])
  | off :: rest =>
    match minode.offset_to_page.lookup off with
    | none => sync_pages bm minode rest
    | some p =>
      if p.flag_dirty = false then sync_pages bm minode rest
      else
        let st := syncPageStep bm minode off p
        let r := sync_pages st.2.1 st.2.2 rest
        let retHead : Int := if st.1 then 0 else -Errno.eio
        ((if retHead ≠ 0 then retHead else r.1), r.2.1, r.2.2.1,
          SyncEv.clearDirty off :: SyncEv.bwriteAttempt off st.1 :: r.2.2.2)

/-- `sync_meta` (shared verbatim by `GenericFsync` and `Btrfs`): rewrite
the per-file metadata record from the MemInode. -/
def sync_meta (fs : FS) (minode : MemInode) : FS :=
  let meta : MetaRec :=
    ⟨minode.size, minode.atime, minode.mtime, minode.offset_to_block⟩
  { fs with hostMeta := fs.hostMeta.set minode.realpath meta }

/-- `GenericFsync.on_fsync` (ext4-ordered / XFS). -/
def on_fsync (fs : FS) (fd ino : Nat) (minode : MemInode) :
    Int × FS × MemInode :=
  let dirty_pages := minode.dirty_page_offsets
  let s := sync_pages fs.bm minode dirty_pages
  let ret := s.1
  let minode₁ := s.2.2.1
  let fs₁ := sync_meta { fs with bm := s.2.1 } minode₁
  let fs₂ := if ret ≠ 0 then add_fds_to_notify fs₁ ino else fs₁
  if should_notify_fd fs₂ fd ino then
    (-Errno.eio, mark_fd_notified fs₂ fd ino, minode₁)
  else
    (ret, fs₂, minode₁)

/-- `GenericFsync.on_sync_write`. -/
def on_sync_write (fs : FS) (fd ino : Nat) (minode : MemInode)
    (pages : List Nat) : Int × FS × MemInode :=
  if should_notify_fd fs fd ino then
    (-Errno.eio, mark_fd_notified fs fd ino, minode)
  else
    let s := sync_pages fs.bm minode pages
    let ret := s.1
    let minode₁ := s.2.2.1
    let fs₁ := sync_meta { fs with bm := s.2.1 } minode₁
    if ret ≠ 0 then
      let fs₂ := add_fds_to_notify fs₁ ino
      (ret, mark_fd_notified fs₂ fd ino, minode₁)
    else
      (ret, fs₁, minode₁)

end GenericFsync

namespace Ext4Data

/-- `Ext4Data.on_fsync`: report a pending failure, otherwise sync and
always return 0 for this call (late reporting). -/
def on_fsync (fs : FS) (fd ino : Nat) (minode : MemInode) :
    Int × FS × MemInode :=
  if GenericFsync.should_notify_fd fs fd ino then
    (-Errno.eio, GenericFsync.mark_fd_notified fs fd ino, minode)
  else
    let s := GenericFsync.sync_pages fs.bm minode minode.dirty_page_offsets
    let ret := s.1
    let minode₁ := s.2.2.1
    let fs₁ := GenericFsync.sync_meta { fs with bm := s.2.1 } minode₁
    let fs₂ := if ret ≠ 0 then GenericFsync.add_fds_to_notify fs₁ ino else fs₁
    (0, fs₂, minode₁)

/-- `Ext4Data.on_sync_write`: after `sync_pages` the source calls
`self.sync_meta(inode)` with the integer inode where a MemInode is
expected; `sync_meta` then evaluates `minode.size` on an `int`, raising
`AttributeError`.  The state mutated before the raise is discarded. -/
def on_sync_write (fs : FS) (fd ino : Nat) (minode : MemInode)
    (pages : List Nat) : Except PyErr (Int × FS × MemInode) :=
  if GenericFsync.should_notify_fd fs fd ino then
    .ok (-Errno.eio, GenericFsync.mark_fd_notified fs fd ino, minode)
  else
    let _s := GenericFsync.sync_pages fs.bm minode pages
    .error .attributeError

end Ext4Data

namespace Btrfs

/-- One dirty-page iteration of the `Btrfs.sync_pages` loop:
copy-on-write — always allocate a fresh block, remember the old one (if
any), clear the dirty flag before the write attempt.  Returns
`(bsuccess, bm', minode', old_block_list, new_block)`. -/
def syncDirtyStep (bm : BlockManager) (minode : MemInode) (off : Nat)
    (p : Page) : Bool × BlockManager × MemInode × List Nat × Nat :=
  let oldHead : List Nat :=
    match minode.offset_to_block.lookup off with
    | some b => [b]
    | none => []
  let a := bm.alloc_block
  let block := a.1
  let bm₁ := a.2
  let minode₁ := { minode with
    offset_to_block := minode.offset_to_block.set off block }
  let p₁ : Page := { p with flag_dirty := false }
  let minode₂ := { minode₁ with
    offset_to_page := minode₁.offset_to_page.set off p₁ }
  let w := bm₁.bwrite block p₁.content (minode.path, off)
  (w.1, w.2.1, minode₂, oldHead, block)

/-- The loop of `Btrfs.sync_pages`: run `syncDirtyStep` per dirty page,
accumulating old and new blocks, and stop at the first failing write.
Returns `(ret, bm, minode, old_blocks, new_blocks)`. -/
def syncLoop (bm : BlockManager) (minode : MemInode) :
    List Nat → Int × BlockManager × MemInode × List Nat × List Nat
  | [] => (0, bm, minode, [], [])
  | off :: rest =>
    match minode.offset_to_page.lookup off with
    | none => syncLoop bm minode rest
    | some p =>
      if p.flag_dirty = false then syncLoop bm minode rest
      else
        let st := syncDirtyStep bm minode off p
        if st.1 then
          let r := syncLoop st.2.1 st.2.2.1 rest
          (r.1, r.2.1, r.2.2.1, st.2.2.2.1 ++ r.2.2.2.1,
            st.2.2.2.2 :: r.2.2.2.2)
        else
          -- first failure: stop here, we will revert to the old state
          (-Errno.eio, st.2.1, st.2.2.1, st.2.2.2.1, [st.2.2.2.2])

/-- `Btrfs.sync_pages`: run the copy-on-write loop, then deallocate the
old blocks on success or the new blocks on failure. -/
def sync_pages (bm : BlockManager) (minode : MemInode) (pages : List Nat) :
    Int × BlockManager × MemInode :=
  let r := syncLoop bm minode pages
  let ret := r.1
  let blocks_to_dealloc := if ret = 0 then r.2.2.2.1 else r.2.2.2.2
  (ret, blocks_to_dealloc.foldl BlockManager.dealloc_block r.2.1, r.2.2.1)

/-- `Btrfs.on_fsync`: report a pending failure; otherwise sync; on
success write the metadata; on failure reload the on-disk metadata
record into the MemInode, evict the dirty pages, register every open fd
for notification, consume this fd's notification and return `-EIO`.
Reading a missing metadata record would raise `FileNotFoundError`. -/
def on_fsync (fs : FS) (fd ino : Nat) (minode : MemInode) :
    Except PyErr (Int × FS × MemInode) :=
  if GenericFsync.should_notify_fd fs fd ino then
    .ok (-Errno.eio, GenericFsync.mark_fd_notified fs fd ino, minode)
  else
    let dirty_pages := minode.dirty_page_offsets
    let s := sync_pages fs.bm minode dirty_pages
    let ret := s.1
    let minode₁ := s.2.2
    let fs₁ : FS := { fs with bm := s.2.1 }
    if ret = 0 then
      .ok (ret, GenericFsync.sync_meta fs₁ minode₁, minode₁)
    else
      match fs₁.hostMeta.lookup minode.realpath with
      | none => .error .fileNotFoundError
      | some disk_meta =>
        let minode₂ := { minode₁ with
          size := disk_meta.size
          atime := disk_meta.atime
          mtime := disk_meta.mtime
          offset_to_block := disk_meta.offset_to_block }
        -- remove all dirty pages from the page cache
        let minode₃ := { minode₂ with
          offset_to_page :=
            dirty_pages.foldl (fun d off => d.pop off) minode₂.offset_to_page }
        let fs₂ := GenericFsync.add_fds_to_notify fs₁ ino
        let fs₃ := GenericFsync.mark_fd_notified fs₂ fd ino
        .ok (ret, fs₃, minode₃)

/-- `Btrfs.on_sync_write`: an O_SYNC write is the same as an fsync. -/
def on_sync_write (fs : FS) (fd ino : Nat) (minode : MemInode)
    (_pages : List Nat) : Except PyErr (Int × FS × MemInode) :=
  on_fsync fs fd ino minode

end Btrfs

/-! ### src/cuttlefs/cuttlefs.py: the facade -/

/-- Python slice assignment `l[a : a + repl.length] = repl` (the source
only ever replaces a slice by one of the same length that lies inside
the buffer). -/
def listSetSlice (l : List Nat) (a : Nat) (repl : List Nat) : List Nat :=
  l.take a ++ repl ++ l.drop (a + repl.length)

namespace CuttleFS

/-- `MemInode.__init__`: build the in-memory inode from the on-disk
metadata record at `realpath` (raises `FileNotFoundError` if absent). -/
def mkMemInode (fs : FS) (ino : Nat) (path realpath : String) :
    Except PyErr MemInode :=
  match fs.hostMeta.lookup realpath with
  | none => .error .fileNotFoundError
  | some meta =>
    .ok { inode := ino, path := path, realpath := realpath
          offset_to_block := meta.offset_to_block
          atime := meta.atime, mtime := meta.mtime, size := meta.size
          offset_to_page := Dict.empty }

/-- `_get_page_for_offset`: return the buffered page, or materialize a
fresh one (filled from the mapped block via `bread`, if any, else
zeroed) and insert it clean into `offset_to_page`.  The
`assert offset % PAGE_SZ == 0` holds at every call site and is elided. -/
def get_page_for_offset (bm : BlockManager) (minode : MemInode)
    (offset : Nat) : Page × MemInode :=
  match minode.offset_to_page.lookup offset with
  | some page => (page, minode)
  | none =>
    let content :=
      match minode.offset_to_block.lookup offset with
      | some block => bm.bread block
      | none => List.replicate PAGE_SZ 0
    let page : Page :=
      { inode := minode.inode, offset := offset, content := content
        flag_dirty := false }
    (page, { minode with offset_to_page := minode.offset_to_page.set offset page })

/-- The `while remaining > 0` loop of `write`.  `fuel` bounds the number
of iterations; every iteration strictly decreases `remaining`, so any
`fuel ≥ remaining` runs the loop to completion.  Returns the updated
inode, the `dirty_pages` list (as page offsets) and the final value of
`remaining`. -/
def writeLoop (bm : BlockManager) (data : List Nat) :
    Nat → Nat → Nat → Nat → MemInode → List Nat →
    MemInode × List Nat × Nat
  | _, _, _, 0, minode, dirty => (minode, dirty, 0)
  | 0, _, _, remaining, minode, dirty => (minode, dirty, remaining)
  | fuel + 1, data_idx, current_offset, remaining, minode, dirty =>
    let page_num := current_offset / PAGE_SZ
    let g := get_page_for_offset bm minode (page_num * PAGE_SZ)
    let page := g.1
    let minode₁ := g.2
    let pg_start := current_offset % PAGE_SZ
    let pg_nbytes := min remaining (PAGE_SZ - pg_start)
    let page' : Page :=
      { page with
        content := listSetSlice page.content pg_start
          ((data.drop data_idx).take pg_nbytes)
        flag_dirty := true }
    let minode₂ := { minode₁ with
      offset_to_page := minode₁.offset_to_page.set (page_num * PAGE_SZ) page' }
    writeLoop bm data fuel (data_idx + pg_nbytes) (current_offset + pg_nbytes)
      (remaining - pg_nbytes) minode₂ (dirty ++ [page_num * PAGE_SZ])

/-- `CuttleFS.write`.  Raises `KeyError` on an unknown fd and
`FileNotFoundError` if the inode has to be loaded and its metadata
record is missing.  When the fd is in `sync_fds` the source calls
`self.on_sync_write(...)`: neither `CuttleFS` nor any of its bases
defines `on_sync_write` (the method exists only on `self.fsync_obj`),
so the call raises `AttributeError`. -/
def write (fs : FS) (path : String) (data : List Nat) (offset : Nat)
    (fd : Nat) : Except PyErr (Int × FS) :=
  match fs.fd_info_map.lookup fd with
  | none => .error .keyError
  | some fd_info =>
    let ino := fd_info.1
    let ensured : Except PyErr (FS × MemInode) :=
      match fs.page_cache.lookup ino with
      | some m => .ok (fs, m)
      | none =>
        match mkMemInode fs ino path fd_info.2 with
        | .error e => .error e
        | .ok m => .ok ({ fs with page_cache := fs.page_cache.set ino m }, m)
    match ensured with
    | .error e => .error e
    | .ok (fs₁, minode) =>
      if data.length = 0 then .ok (0, fs₁)
      else
        let sync_fd : Bool := decide (fd ∈ fs₁.sync_fds)
        let r := writeLoop fs₁.bm data data.length 0 offset data.length minode []
        let minode₁ := r.1
        let remaining := r.2.2
        let nbytes_written := data.length - remaining
        let minode₂ :=
          if offset + nbytes_written > minode₁.size then
            { minode₁ with size := offset + nbytes_written }
          else minode₁
        let minode₃ := { minode₂ with mtime := fs₁.now }
        let fs₂ := { fs₁ with page_cache := fs₁.page_cache.set ino minode₃ }
        if sync_fd then
          -- self.on_sync_write does not exist on the facade: AttributeError
          .error .attributeError
        else
          .ok ((nbytes_written : Int), fs₂)

/-- The `while remaining > 0` loop of `read`.  Faithful to the source,
the cursor advances by `len(data)` where `data` is the slice copied out
of the page; `fuel` bounds the number of iterations. -/
def readLoop (bm : BlockManager) :
    Nat → Nat → Nat → MemInode → List Nat → List Nat × MemInode
  | _, _, 0, minode, buf => (buf, minode)
  | 0, _, _, minode, buf => (buf, minode)
  | fuel + 1, current_offset, remaining, minode, buf =>
    let page_num := current_offset / PAGE_SZ
    let g := get_page_for_offset bm minode (page_num * PAGE_SZ)
    let page := g.1
    let minode₁ := g.2
    let pg_start := current_offset % PAGE_SZ
    let pg_nbytes := min remaining (PAGE_SZ - pg_start)
    let data := (page.content.drop pg_start).take pg_nbytes
    readLoop bm fuel (current_offset + data.length) (remaining - data.length)
      minode₁ (buf ++ data)

/-- `CuttleFS.read`. -/
def read (fs : FS) (path : String) (size offset : Nat) (fd : Nat) :
    Except PyErr (List Nat × FS) :=
  match fs.fd_info_map.lookup fd with
  | none => .error .keyError
  | some fd_info =>
    let ino := fd_info.1
    let ensured : Except PyErr (FS × MemInode) :=
      match fs.page_cache.lookup ino with
      | some m => .ok (fs, m)
      | none =>
        match mkMemInode fs ino path fd_info.2 with
        | .error e => .error e
        | .ok m => .ok ({ fs with page_cache := fs.page_cache.set ino m }, m)
    match ensured with
    | .error e => .error e
    | .ok (fs₁, minode) =>
      if size = 0 then .ok ([], fs₁)
      else if offset ≥ minode.size then .ok ([], fs₁)
      else
        let size₁ := if offset + size ≥ minode.size then minode.size - offset
                     else size
        let r := readLoop fs₁.bm size₁ offset size₁ minode []
        .ok (r.1, { fs₁ with page_cache := fs₁.page_cache.set ino r.2 })

/-- `CuttleFS.truncate`.  In the `length < size` branch the source's
removal loop reads `self.offset_to_page` / `self.offset_to_block` on
the facade object, which has no such attributes (they live on the
MemInode): the first iteration raises `AttributeError`.  The loop runs
iff some page-aligned offset strictly beyond the page containing byte
`length - 1` is below the old size. -/
def truncate (fs : FS) (path : String) (length : Nat) :
    Except PyErr (Int × FS) :=
  match fs.hostIno.lookup path with
  | none => .error .fileNotFoundError
  | some ino =>
    let ensured : Except PyErr (FS × MemInode) :=
      match fs.page_cache.lookup ino with
      | some m => .ok (fs, m)
      | none =>
        match mkMemInode fs ino path path with
        | .error e => .error e
        | .ok m => .ok ({ fs with page_cache := fs.page_cache.set ino m }, m)
    match ensured with
    | .error e => .error e
    | .ok (fs₁, minode) =>
      if length = minode.size then .ok ((length : Int), fs₁)
      else if length = 0 then
        let bm' := minode.offset_to_block.valuesList.foldl
          BlockManager.dealloc_block fs₁.bm
        let minode' := { minode with
          offset_to_page := Dict.empty
          offset_to_block := Dict.empty
          size := 0 }
        let fs₂ := { fs₁ with bm := bm' }
        .ok (0, { fs₂ with page_cache := fs₂.page_cache.set ino minode' })
      else if length < minode.size then
        let last_valid_page := (length - 1) / PAGE_SZ
        let g := get_page_for_offset fs₁.bm minode (last_valid_page * PAGE_SZ)
        let page := g.1
        let minode₁ := g.2
        let pg_start := length % PAGE_SZ
        let pg_nbytes := PAGE_SZ - pg_start
        let minode₂ :=
          if pg_nbytes > 0 then
            let page' : Page :=
              { page with
                content := listSetSlice page.content pg_start
                  (List.replicate pg_nbytes 0)
                flag_dirty := true }
            { minode₁ with offset_to_page :=
                minode₁.offset_to_page.set (last_valid_page * PAGE_SZ) page' }
          else minode₁
        if (last_valid_page + 1) * PAGE_SZ < minode.size then
          -- self.offset_to_page on the facade: AttributeError
          .error .attributeError
        else
          let minode₃ := { minode₂ with size := length }
          .ok ((length : Int),
            { fs₁ with page_cache := fs₁.page_cache.set ino minode₃ })
      else
        -- length > minode.size: zero-fill the gap page by page; the loop
        -- body is the write loop with a stream of zeroes and no dirty list
        let r := writeLoop fs₁.bm (List.replicate (length - minode.size) 0)
          (length - minode.size) 0 minode.size (length - minode.size) minode []
        let minode₁ := { r.1 with size := length }
        .ok ((length : Int),
          { fs₁ with page_cache := fs₁.page_cache.set ino minode₁ })

/-- `CuttleFS.fsync`: dispatch to the active policy's `on_fsync`
(`fdatasync` is not distinguished).  Returns 0 untouched when the inode
is not in the page cache. -/
def fsync (fs : FS) (fd : Nat) : Except PyErr (Int × FS) :=
  match fs.fd_info_map.lookup fd with
  | none => .error .keyError
  | some fd_info =>
    let ino := fd_info.1
    match fs.page_cache.lookup ino with
    | none => .ok (0, fs)
    | some minode =>
      match fs.policy with
      | .ext4Ordered | .xfs =>
        let r := GenericFsync.on_fsync fs fd ino minode
        .ok (r.1, { r.2.1 with page_cache := r.2.1.page_cache.set ino r.2.2 })
      | .ext4Data =>
        let r := Ext4Data.on_fsync fs fd ino minode
        .ok (r.1, { r.2.1 with page_cache := r.2.1.page_cache.set ino r.2.2 })
      | .btrfs =>
        match Btrfs.on_fsync fs fd ino minode with
        | .error e => .error e
        | .ok r =>
          .ok (r.1, { r.2.1 with page_cache := r.2.1.page_cache.set ino r.2.2 })

/-- A sequence of `fsync` calls by the given fds (the harness used to
state "whether or not any fsync has occurred in between"). -/
def fsyncChain (fs : FS) : List Nat → Except PyErr (List Int × FS)
  | [] => .ok ([], fs)
  | fd :: rest =>
    match fsync fs fd with
    | .error e => .error e
    | .ok (r, fs₁) =>
      match fsyncChain fs₁ rest with
      | .error e => .error e
      | .ok (rs, fs₂) => .ok (r :: rs, fs₂)

end CuttleFS

/-! ### Predicates and fixtures used by the theorems -/

/-- Every buffered page holds exactly PAGE_SZ bytes (maintained by every
operation; pages are created with PAGE_SZ bytes and only ever updated by
same-length slice assignment). -/
abbrev WFpages (m : MemInode) : Prop :=
  ∀ e ∈ m.offset_to_page.entries, e.2.content.length = PAGE_SZ

/-- Every chunk of the backing file holds exactly SECTOR_SZ bytes
(maintained because `bwrite` is only ever given PAGE_SZ bytes). -/
abbrev WFbm (bm : BlockManager) : Prop :=
  ∀ e ∈ bm.backing.entries, e.2.length = SECTOR_SZ

/-- Well-formedness of the whole file-system state. -/
abbrev WFfs (fs : FS) : Prop :=
  WFbm fs.bm ∧ ∀ e ∈ fs.page_cache.entries, WFpages e.2

/-- The buffered pages of `m` cover `data` at byte offset `off`: every
byte of `data` is buffered at its position. -/
def covers (m : MemInode) (off : Nat) (data : List Nat) : Prop :=
  ∀ k, k < data.length →
    ∃ p, m.offset_to_page.lookup ((off + k) / PAGE_SZ * PAGE_SZ) = some p ∧
      p.content.length = PAGE_SZ ∧
      p.content.getD ((off + k) % PAGE_SZ) 0 = data.getD k 0

/-- `m'` still buffers every page `m` buffered, with the same content
(the dirty flag may differ). -/
def pagesContentPres (m m' : MemInode) : Prop :=
  ∀ off p, m.offset_to_page.lookup off = some p →
    ∃ p', m'.offset_to_page.lookup off = some p' ∧ p'.content = p.content

/-- Fold of `on_close_fd` over a list of fds of one inode. -/
def closeAllFds (fs : FS) (ino : Nat) (fds : List Nat) : FS :=
  fds.foldl (fun acc fd => GenericFsync.on_close_fd acc fd ino) fs

/-- Return value of a facade call, if it did not raise. -/
def exRet (e : Except PyErr (Int × FS)) : Option Int :=
  match e with
  | .ok r => some r.1
  | .error _ => none

/-- State after a facade call (the given default if it raised). -/
def exFS (e : Except PyErr (Int × FS)) (dflt : FS) : FS :=
  match e with
  | .ok r => r.2
  | .error _ => dflt

/-- Bytes returned by a `read`, if it did not raise. -/
def exBytes (e : Except PyErr (List Nat × FS)) : Option (List Nat) :=
  match e with
  | .ok r => some r.1
  | .error _ => none

/-- The block mapped at `off` by the cached inode `ino`. -/
def inodeBlock (fs : FS) (ino off : Nat) : Option Nat :=
  match fs.page_cache.lookup ino with
  | none => none
  | some m => m.offset_to_block.lookup off

-- Concrete fixture: one regular file `/f` (host inode 7, open as fd 4)
-- of one committed block (block 0, all bytes 97), and a fault oracle
-- `X` (fail everything) installed on sector offset 0 of `/f`.

def fxPath : String := "/f"

def fxSeqX : FailSeq := { seq := ['X'], idx := -1 }

def fxFaulty : Dict String (Dict Nat FailSeq) :=
  ⟨[(fxPath, ⟨[(0, fxSeqX)]⟩)]⟩

def fxBacking97 : Dict Nat (List Nat) :=
  ⟨(List.range (PAGE_SZ / SECTOR_SZ)).map
    (fun i => (i * SECTOR_SZ, List.replicate SECTOR_SZ 97))⟩

def fxBm : BlockManager :=
  { size := 2 * PAGE_SZ, free_list := [], largest_block_num := 1
    faulty_paths := fxFaulty, backing := fxBacking97 }

def fxMeta : MetaRec :=
  { size := PAGE_SZ, atime := 0, mtime := 0, offset_to_block := ⟨[(0, 0)]⟩ }

def fxInode : MemInode :=
  { inode := 7, path := fxPath, realpath := fxPath
    offset_to_block := ⟨[(0, 0)]⟩, atime := 0, mtime := 0, size := PAGE_SZ
    offset_to_page := ⟨[]⟩ }

def fxFS (pol : FsyncPolicy) : FS :=
  { bm := fxBm, hostMeta := ⟨[(fxPath, fxMeta)]⟩, hostIno := ⟨[(fxPath, 7)]⟩
    page_cache := ⟨[(7, fxInode)]⟩, fd_info_map := ⟨[(4, (7, fxPath))]⟩
    inode_to_open_fds_map := ⟨[(7, [4])]⟩, sync_fds := []
    failed_inodes_fd_map := ⟨[]⟩, policy := pol, now := 9 }

/-- Fixture variant: fd 4 was opened with O_SYNC. -/
def fxFSsync : FS := { fxFS FsyncPolicy.ext4Ordered with sync_fds := [4] }

/-- A dirty buffered page of bytes 98 at offset 0. -/
def fxDirtyPage : Page :=
  { inode := 7, offset := 0, content := List.replicate PAGE_SZ 98
    flag_dirty := true }

/-- Fixture inode with the dirty page buffered. -/
def fxInodeDirty : MemInode :=
  { fxInode with offset_to_page := ⟨[(0, fxDirtyPage)]⟩ }

/-- Fixture for a two-page file (pages at 0 and 4096, blocks 0 and 1). -/
def fxInode2 : MemInode :=
  { fxInode with
    size := 2 * PAGE_SZ
    offset_to_block := ⟨[(0, 0), (PAGE_SZ, 1)]⟩ }

def fxFS2 : FS :=
  { fxFS FsyncPolicy.ext4Ordered with page_cache := ⟨[(7, fxInode2)]⟩ }

/-- Fixture with a pending-notification entry for inode 7 held by
fds 4 and 5. -/
def fxFSfail : FS :=
  { fxFS FsyncPolicy.ext4Ordered with
    failed_inodes_fd_map := ⟨[(7, [4, 5])]⟩ }

-- C7 counterexample run (btrfs): overwrite byte 0 of the committed
-- block with 120, fsync (faulted, the policy reverts the inode and
-- evicts the dirty page), read byte 0 back (it is repopulated from the
-- unchanged committed block: 97, not 120).

def c7D : List Nat := [120]

def c7write : Except PyErr (Int × FS) :=
  CuttleFS.write (fxFS FsyncPolicy.btrfs) fxPath c7D 0 4

def c7St1 : FS := exFS c7write (fxFS FsyncPolicy.btrfs)

def c7fsync : Except PyErr (Int × FS) := CuttleFS.fsync c7St1 4

def c7St2 : FS := exFS c7fsync c7St1

def c7read : Except PyErr (List Nat × FS) :=
  CuttleFS.read c7St2 fxPath c7D.length 0 4

-- C8 run (btrfs): truncate `/f` to 0 (deallocates block 0 while the
-- on-disk record still maps offset 0 to block 0), write one byte,
-- fsync (the allocation reuses block 0 from the free list, the faulted
-- write fails, the new block 0 is deallocated again and the stale
-- on-disk map — still naming block 0 — is reloaded into the MemInode).

def c8truncate : Except PyErr (Int × FS) :=
  CuttleFS.truncate (fxFS FsyncPolicy.btrfs) fxPath 0

def c8St1 : FS := exFS c8truncate (fxFS FsyncPolicy.btrfs)

def c8write : Except PyErr (Int × FS) :=
  CuttleFS.write c8St1 fxPath [98] 0 4

def c8St2 : FS := exFS c8write c8St1

def c8fsync : Except PyErr (Int × FS) := CuttleFS.fsync c8St2 4

def c8St3 : FS := exFS c8fsync c8St2

/-- State after a `read`, default if it raised. -/
def exReadFS (e : Except PyErr (List Nat × FS)) (dflt : FS) : FS :=
  match e with
  | .ok r => r.2
  | .error _ => dflt

-- C10 witness run: a plain 5-byte read on the fixture.

def c10run : Except PyErr (List Nat × FS) :=
  CuttleFS.read (fxFS FsyncPolicy.ext4Ordered) fxPath 5 0 4

def c10buf : List Nat := (exBytes c10run).getD []

def c10fs : FS := exReadFS c10run (fxFS FsyncPolicy.ext4Ordered)

-- C7 amended-claim witness run: a one-byte write with no intervening
-- fsync, then the read.

def c7amWrite : Except PyErr (Int × FS) :=
  CuttleFS.write (fxFS FsyncPolicy.ext4Ordered) fxPath [104] 0 4

def c7amN : Int := (exRet c7amWrite).getD 0

def c7amSt1 : FS := exFS c7amWrite (fxFS FsyncPolicy.ext4Ordered)

/-- The byte a read of length 1 at absolute position `a` would copy out
of the buffered page, if any (0 for the default of `getD`; only used at
positions where the page is buffered). -/
def readByte (m : MemInode) (a : Nat) : Nat :=
  match m.offset_to_page.lookup (a / PAGE_SZ * PAGE_SZ) with
  | some p => p.content.getD (a % PAGE_SZ) 0
  | none => 0

/-! ### Theorems.  Basic lemmas about the container embeddings. -/

set_option maxRecDepth 8000

namespace Dict

variable {α β : Type} [DecidableEq α]

theorem lookupList_setList_self (l : List (α × β)) (k : α) (v : β) :
    lookupList (setList l k v) k = some v := by
  induction l with
  | nil => simp [setList, lookupList]
  | cons e rest ih =>
    by_cases h : e.1 = k <;> simp [setList, lookupList, h, ih]

theorem lookup_set_self (d : Dict α β) (k : α) (v : β) :
    (d.set k v).lookup k = some v :=
  lookupList_setList_self d.entries k v

theorem lookupList_setList_ne (l : List (α × β)) (k k' : α) (v : β)
    (h : k' ≠ k) : lookupList (setList l k v) k' = lookupList l k' := by
  have hkk : ¬ k = k' := fun h' => h h'.symm
  induction l with
  | nil => simp [setList, lookupList, hkk]
  | cons e rest ih =>
    by_cases he : e.1 = k
    · simp [setList, lookupList, he, hkk, ih]
    · simp [setList, lookupList, he, ih]

theorem lookup_set_ne (d : Dict α β) (k k' : α) (v : β) (h : k' ≠ k) :
    (d.set k v).lookup k' = d.lookup k' :=
  lookupList_setList_ne d.entries k k' v h

theorem lookupList_filter_self (l : List (α × β)) (k : α) :
    lookupList (l.filter (fun e => decide (e.1 ≠ k))) k = none := by
  induction l with
  | nil => simp [lookupList]
  | cons e rest ih =>
    by_cases h : e.1 = k
    · simpa [List.filter_cons, h] using ih
    · simpa [List.filter_cons, h, lookupList] using ih

theorem lookup_pop_self (d : Dict α β) (k : α) : (d.pop k).lookup k = none :=
  lookupList_filter_self d.entries k

theorem lookupList_filter_ne (l : List (α × β)) (k k' : α) (h : k' ≠ k) :
    lookupList (l.filter (fun e => decide (e.1 ≠ k))) k' = lookupList l k' := by
  induction l with
  | nil => simp
  | cons e rest ih =>
    by_cases he : e.1 = k
    · have hek' : ¬ e.1 = k' := by rw [he]; exact fun hh => h hh.symm
      rw [List.filter_cons_of_neg (by simp [he])]
      rw [show lookupList (e :: rest) k' = lookupList rest k' from by
        simp [lookupList, hek']]
      exact ih
    · rw [List.filter_cons_of_pos (by simp [he])]
      have ih' : lookupList (List.filter (fun e => !decide (e.1 = k)) rest) k'
          = lookupList rest k' := by simpa using ih
      by_cases he' : e.1 = k' <;> simp [lookupList, he', ih']

theorem lookup_pop_ne (d : Dict α β) (k k' : α) (h : k' ≠ k) :
    (d.pop k).lookup k' = d.lookup k' :=
  lookupList_filter_ne d.entries k k' h

theorem lookup_pop_none (d : Dict α β) (k k' : α) (h : d.lookup k' = none) :
    (d.pop k).lookup k' = none := by
  by_cases hk : k' = k
  · rw [hk]; exact lookup_pop_self d k
  · rw [lookup_pop_ne d k k' hk]; exact h

theorem lookupList_mem {l : List (α × β)} {k : α} {v : β}
    (h : lookupList l k = some v) : (k, v) ∈ l := by
  induction l with
  | nil => simp [lookupList] at h
  | cons e rest ih =>
    obtain ⟨e1, e2⟩ := e
    by_cases he : e1 = k
    · simp only [lookupList, he, if_pos] at h
      obtain rfl : e2 = v := by simpa using h
      subst he
      exact List.mem_cons_self _ _
    · simp only [lookupList, he, if_false] at h
      have h' : lookupList rest k = some v := by simpa [he] using h
      exact List.mem_cons_of_mem _ (ih h')

theorem lookup_mem {d : Dict α β} {k : α} {v : β}
    (h : d.lookup k = some v) : (k, v) ∈ d.entries :=
  lookupList_mem h

theorem setList_mem {l : List (α × β)} {k : α} {v : β} {e : α × β}
    (h : e ∈ setList l k v) : e ∈ l ∨ e = (k, v) := by
  induction l with
  | nil => simp [setList] at h; right; exact h
  | cons e' rest ih =>
    by_cases he : e'.1 = k
    · simp only [setList, he, if_pos] at h
      rcases List.mem_cons.1 h with h | h
      · right; exact h
      · left; exact List.mem_cons_of_mem _ h
    · simp only [setList, he, if_false] at h
      have h' : e ∈ e' :: setList rest k v := by simpa [he] using h
      rcases List.mem_cons.1 h' with h'' | h''
      · left; simp [h'']
      · rcases ih h'' with h3 | h3
        · left; exact List.mem_cons_of_mem _ h3
        · right; exact h3

theorem set_mem {d : Dict α β} {k : α} {v : β} {e : α × β}
    (h : e ∈ (d.set k v).entries) : e ∈ d.entries ∨ e = (k, v) :=
  setList_mem h

theorem pop_mem {d : Dict α β} {k : α} {e : α × β}
    (h : e ∈ (d.pop k).entries) : e ∈ d.entries :=
  List.mem_of_mem_filter h

end Dict

namespace PySet

theorem mem_discard {s : List Nat} {x y : Nat} :
    y ∈ discard s x ↔ y ∈ s ∧ y ≠ x := by
  simp [discard]

theorem discard_eq_nil (s : List Nat) (x : Nat) (h : ∀ y ∈ s, y = x) :
    discard s x = [] := by
  induction s with
  | nil => simp [discard]
  | cons a rest ih =>
    have ha : a = x := h a (List.mem_cons_self _ _)
    have : discard rest x = [] := ih (fun y hy => h y (List.mem_cons_of_mem _ hy))
    simp [discard, List.filter_cons, ha] at this ⊢
    exact this

end PySet

/-! ### List slice lemmas (Python slicing semantics) -/

theorem sliceGetD_append_left {l₁ l₂ : List Nat} {i : Nat} (d : Nat)
    (h : i < l₁.length) : (l₁ ++ l₂).getD i d = l₁.getD i d := by
  induction l₁ generalizing i with
  | nil => simp at h
  | cons a l ih =>
    cases i with
    | zero => simp [List.getD]
    | succ j =>
      simp only [List.cons_append, List.getD_cons_succ]
      exact ih (by simpa using h)

theorem sliceGetD_append_right {l₁ l₂ : List Nat} {i : Nat} (d : Nat)
    (h : l₁.length ≤ i) : (l₁ ++ l₂).getD i d = l₂.getD (i - l₁.length) d := by
  induction l₁ generalizing i with
  | nil => simp
  | cons a l ih =>
    cases i with
    | zero => simp at h
    | succ j =>
      simp only [List.cons_append, List.getD_cons_succ, List.length_cons]
      rw [ih (by simpa using h)]
      simp [Nat.succ_sub_succ]

theorem sliceGetD_take {l : List Nat} {i n : Nat} (d : Nat)
    (h : i < n) : (l.take n).getD i d = l.getD i d := by
  induction l generalizing i n with
  | nil => simp
  | cons a l ih =>
    cases n with
    | zero => simp at h
    | succ m =>
      cases i with
      | zero => simp [List.getD]
      | succ j =>
        simp only [List.take_succ_cons, List.getD_cons_succ]
        exact ih (by omega)

theorem sliceGetD_drop {l : List Nat} {i n : Nat} (d : Nat) :
    (l.drop n).getD i d = l.getD (n + i) d := by
  induction l generalizing n with
  | nil => simp
  | cons a l ih =>
    cases n with
    | zero => simp
    | succ m =>
      simp only [List.drop_succ_cons]
      rw [ih]
      simp [Nat.succ_add]

theorem length_listSetSlice {l repl : List Nat} {a : Nat}
    (h : a + repl.length ≤ l.length) :
    (listSetSlice l a repl).length = l.length := by
  simp [listSetSlice]
  omega

theorem getD_listSetSlice_inside {l repl : List Nat} {a j : Nat} (d : Nat)
    (h : a + repl.length ≤ l.length) (hj : j < repl.length) :
    (listSetSlice l a repl).getD (a + j) d = repl.getD j d := by
  unfold listSetSlice
  rw [List.append_assoc]
  have hta : (l.take a).length = a := by rw [List.length_take]; omega
  have h1 : (l.take a).length ≤ a + j := by rw [hta]; omega
  rw [sliceGetD_append_right d h1, hta]
  have h2 : a + j - a = j := by omega
  rw [h2]
  exact sliceGetD_append_left d hj

theorem getD_listSetSlice_left {l repl : List Nat} {a i : Nat} (d : Nat)
    (hl : a ≤ l.length) (hi : i < a) :
    (listSetSlice l a repl).getD i d = l.getD i d := by
  unfold listSetSlice
  rw [List.append_assoc]
  have h1 : i < (l.take a).length := by rw [List.length_take]; omega
  rw [sliceGetD_append_left d h1]
  exact sliceGetD_take d hi

theorem getD_listSetSlice_right {l repl : List Nat} {a i : Nat} (d : Nat)
    (hl : a + repl.length ≤ l.length) (hi : a + repl.length ≤ i) :
    (listSetSlice l a repl).getD i d = l.getD i d := by
  unfold listSetSlice
  rw [List.append_assoc]
  have hta : (l.take a).length = a := by rw [List.length_take]; omega
  have h1 : (l.take a).length ≤ i := by rw [hta]; omega
  rw [sliceGetD_append_right d h1, hta]
  have h2 : repl.length ≤ i - a := by omega
  rw [sliceGetD_append_right d h2, sliceGetD_drop]
  have h3 : a + repl.length + (i - a - repl.length) = i := by omega
  rw [h3]

/-! ### Claims settled by concrete evaluation of the embedded code -/

/-- Claim C1: the claim states that for a write with fd in `sync_fds`
and non-empty data the facade invokes the active policy's
`on_sync_write` and returns its negative result or the byte count.  The
code instead evaluates `self.on_sync_write` on the facade, which has no
such attribute (the method lives on `self.fsync_obj`), so every such
write raises `AttributeError`: here a one-byte write on fd 4 ∈
`sync_fds`. -/
theorem claim_C1_sync_write_attribute_error :
    4 ∈ fxFSsync.sync_fds ∧ ([104] : List Nat) ≠ [] ∧
    CuttleFS.write fxFSsync fxPath [104] 0 4 =
      Except.error PyErr.attributeError :=
  ⟨by decide, by decide, by rfl⟩

/-- Claim C3: the claim states that under ext4-data both `on_fsync` and
`on_sync_write` return 0 for an fd not owed a notification even when a
block write fails.  `on_fsync` does (first two conjuncts: the block
write fails, yet 0 is returned), but `on_sync_write` passes the integer
`inode` to `sync_meta`, which evaluates `minode.size` on an `int` and
raises `AttributeError` (last conjunct), so the call never returns 0. -/
theorem claim_C3_ext4data_on_sync_write_attribute_error :
    (GenericFsync.sync_pages (fxFS FsyncPolicy.ext4Data).bm
        fxInodeDirty [0]).1 ≠ 0 ∧
    (Ext4Data.on_fsync (fxFS FsyncPolicy.ext4Data) 4 7 fxInodeDirty).1 = 0 ∧
    GenericFsync.should_notify_fd (fxFS FsyncPolicy.ext4Data) 4 7 = false ∧
    Ext4Data.on_sync_write (fxFS FsyncPolicy.ext4Data) 4 7 fxInodeDirty [0] =
      Except.error PyErr.attributeError :=
  ⟨by decide, by rfl, by rfl, by rfl⟩

/-- Claim C9: the claim describes `truncate` with `0 < length < size`.
The tail-zeroing part matches the code, but as soon as some page-aligned
offset lies strictly beyond the page containing byte `length - 1` and
below the old size, the removal loop dereferences
`self.offset_to_page` on the facade — which has no such attribute — and
raises `AttributeError`: here `truncate(/f, 100)` on a 8192-byte file. -/
theorem claim_C9_truncate_attribute_error :
    fxInode2.size = 2 * PAGE_SZ ∧ (0 : Nat) < 100 ∧ 100 < fxInode2.size ∧
    CuttleFS.truncate fxFS2 fxPath 100 = Except.error PyErr.attributeError :=
  ⟨by rfl, by decide, by decide, by rfl⟩

/-- Claim C8: the claim states that after every completed facade or
policy operation no block number is both in some MemInode's
`offset_to_block` and in the free list.  Counter-run: `truncate(/f, 0)`
deallocates block 0 while the on-disk record still maps offset 0 to it;
a one-byte write followed by a faulted btrfs fsync then reallocates
block 0, deallocates it again on failure, and reloads the stale on-disk
map — after the completed fsync, block 0 is in the free list and in
`offset_to_block`. -/
theorem claim_C8_free_list_exclusivity_violated :
    exRet c8truncate = some 0 ∧ exRet c8write = some 1 ∧
    exRet c8fsync = some (-Errno.eio) ∧
    0 ∈ c8St3.bm.free_list ∧ inodeBlock c8St3 7 0 = some 0 :=
  ⟨by rfl, by rfl, by rfl, by decide, by rfl⟩

/-- Claim C7 (counterexample): the claim says a successful
`write(path, D, off, fd)` followed by a `read(path, |D|, off, fd)`
returns `D` whether or not any fsync occurred in between.  Under the
btrfs policy, a fault-injected fsync between the two reverts the inode
and evicts the dirty page, so the read repopulates from the committed
block and returns the pre-write byte 97 instead of `D = [120]`. -/
theorem claim_C7_counterexample :
    exRet c7write = some ((c7D.length : Int)) ∧
    exRet c7fsync = some (-Errno.eio) ∧
    exBytes c7read = some [97] ∧
    exBytes c7read ≠ some c7D := by
  refine ⟨by rfl, by rfl, by rfl, ?_⟩
  intro h
  have h97 : exBytes c7read = some [97] := by rfl
  rw [h97] at h
  exact absurd (Option.some.inj h) (by decide)

/-! ### Claim C5: notification on next opener -/

theorem closeAllFds_lookup (S' : List Nat) :
    ∀ (fs : FS) (ino : Nat) (S : List Nat),
      fs.failed_inodes_fd_map.lookup ino = some S →
      (closeAllFds fs ino S').failed_inodes_fd_map.lookup ino =
        some (S'.foldl PySet.discard S) := by
  induction S' with
  | nil => intro fs ino S h; simpa [closeAllFds] using h
  | cons a rest ih =>
    intro fs ino S h
    have hstep : (GenericFsync.on_close_fd fs a ino).failed_inodes_fd_map.lookup
        ino = some (PySet.discard S a) := by
      unfold GenericFsync.on_close_fd
      rw [h]
      exact Dict.lookup_set_self _ _ _
    have := ih (GenericFsync.on_close_fd fs a ino) ino (PySet.discard S a) hstep
    simpa [closeAllFds] using this

theorem foldl_discard_self (l : List Nat) :
    ∀ s : List Nat, (∀ y ∈ s, y ∈ l) → l.foldl PySet.discard s = [] := by
  induction l with
  | nil =>
    intro s h
    have : s = [] := by
      cases s with
      | nil => rfl
      | cons a t => exact absurd (h a (List.mem_cons_self _ _)) (by simp)
    simp [this]
  | cons a rest ih =>
    intro s h
    have hsub : ∀ y ∈ PySet.discard s a, y ∈ rest := by
      intro y hy
      obtain ⟨hys, hya⟩ := PySet.mem_discard.1 hy
      rcases List.mem_cons.1 (h y hys) with h' | h'
      · exact absurd h' hya
      · exact h'
    simpa [List.foldl_cons] using ih (PySet.discard s a) hsub

theorem sync_meta_failed_map (fs : FS) (m : MemInode) :
    (GenericFsync.sync_meta fs m).failed_inodes_fd_map =
      fs.failed_inodes_fd_map := rfl

theorem withBm_failed_map (fs : FS) (b : BlockManager) :
    ({ fs with bm := b } : FS).failed_inodes_fd_map =
      fs.failed_inodes_fd_map := rfl

theorem on_fsync_notified_empty (fs : FS) (g ino : Nat) (m : MemInode)
    (hA : fs.failed_inodes_fd_map.lookup ino = some [])
    (h1 : (GenericFsync.sync_pages fs.bm m m.dirty_page_offsets).1 = 0) :
    (GenericFsync.on_fsync fs g ino m).1 = -Errno.eio ∧
    (GenericFsync.on_fsync fs g ino
      m).2.1.failed_inodes_fd_map.lookup ino = none := by
  unfold GenericFsync.on_fsync
  simp only [h1, ne_eq, not_true_eq_false, ite_false, if_false]
  have hnotify : GenericFsync.should_notify_fd
      (GenericFsync.sync_meta
        { fs with bm := (GenericFsync.sync_pages fs.bm m
            m.dirty_page_offsets).2.1 }
        (GenericFsync.sync_pages fs.bm m m.dirty_page_offsets).2.2.1) g ino
      = true := by
    unfold GenericFsync.should_notify_fd
    rw [sync_meta_failed_map, withBm_failed_map, hA]
    rfl
  rw [if_pos hnotify]
  refine ⟨rfl, ?_⟩
  unfold GenericFsync.mark_fd_notified
  rw [sync_meta_failed_map, withBm_failed_map, hA]
  simp only [PySet.discard, List.filter_nil, List.length_nil, if_pos rfl]
  exact Dict.lookup_pop_self _ _

theorem on_fsync_no_entry (fs : FS) (g ino : Nat) (m : MemInode)
    (hA : fs.failed_inodes_fd_map.lookup ino = none)
    (h1 : (GenericFsync.sync_pages fs.bm m m.dirty_page_offsets).1 = 0) :
    (GenericFsync.on_fsync fs g ino m).1 = 0 := by
  unfold GenericFsync.on_fsync
  simp only [h1, ne_eq, not_true_eq_false, ite_false, if_false]
  have hnotify : GenericFsync.should_notify_fd
      (GenericFsync.sync_meta
        { fs with bm := (GenericFsync.sync_pages fs.bm m
            m.dirty_page_offsets).2.1 }
        (GenericFsync.sync_pages fs.bm m m.dirty_page_offsets).2.2.1) g ino
      = false := by
    unfold GenericFsync.should_notify_fd
    rw [sync_meta_failed_map, withBm_failed_map, hA]
  rw [if_neg (by simp [hnotify])]

/-- Claim C5: if a block-write failure was registered for an inode
(entry `S` of `failed_inodes_fd_map`, the fds open at failure time) and
every fd of `S` closes via `on_close_fd` without being notified, then
the first `on_fsync` issued by the next fd `g` returns `-EIO`, and only
that call does: a second `on_fsync` by `g`, absent any new failure
(both calls' page syncs return 0), returns 0. -/
theorem claim_C5_notify_next_opener (fs : FS) (ino : Nat) (S : List Nat)
    (g : Nat) (minode : MemInode)
    (hreg : fs.failed_inodes_fd_map.lookup ino = some S)
    (h1 : (GenericFsync.sync_pages (closeAllFds fs ino S).bm minode
        minode.dirty_page_offsets).1 = 0)
    (h2 : (GenericFsync.sync_pages
        (GenericFsync.on_fsync (closeAllFds fs ino S) g ino minode).2.1.bm
        (GenericFsync.on_fsync (closeAllFds fs ino S) g ino minode).2.2
        (GenericFsync.on_fsync (closeAllFds fs ino S) g ino
          minode).2.2.dirty_page_offsets).1 = 0) :
    (GenericFsync.on_fsync (closeAllFds fs ino S) g ino minode).1 =
      -Errno.eio ∧
    (GenericFsync.on_fsync
        (GenericFsync.on_fsync (closeAllFds fs ino S) g ino minode).2.1 g ino
        (GenericFsync.on_fsync (closeAllFds fs ino S) g ino minode).2.2).1
      = 0 := by
  have hA : (closeAllFds fs ino S).failed_inodes_fd_map.lookup ino
      = some [] := by
    rw [closeAllFds_lookup S fs ino S hreg,
      foldl_discard_self S S (fun y hy => hy)]
  obtain ⟨hret, hgone⟩ :=
    on_fsync_notified_empty (closeAllFds fs ino S) g ino minode hA h1
  exact ⟨hret, on_fsync_no_entry _ g ino _ hgone h2⟩

/-- Claim C5 witness: concrete instance — inode 7 owed notifications to
fds 4 and 5, both close unnotified; the next fd 6 gets `-EIO` exactly
once. -/
theorem claim_C5_notify_next_opener_witness :
    (GenericFsync.on_fsync (closeAllFds fxFSfail 7 [4, 5]) 6 7 fxInode).1 =
      -Errno.eio ∧
    (GenericFsync.on_fsync
        (GenericFsync.on_fsync (closeAllFds fxFSfail 7 [4, 5]) 6 7
          fxInode).2.1 6 7
        (GenericFsync.on_fsync (closeAllFds fxFSfail 7 [4, 5]) 6 7
          fxInode).2.2).1 = 0 :=
  claim_C5_notify_next_opener fxFSfail 7 [4, 5] 6 fxInode
    (by rfl) (by rfl) (by rfl)

/-! ### Claim C2: btrfs failure revert -/

theorem foldl_pop_lookup_none {α β : Type} [DecidableEq α]
    (l : List α) : ∀ (d : Dict α β) (k : α), d.lookup k = none →
      (l.foldl (fun d o => d.pop o) d).lookup k = none := by
  induction l with
  | nil => intro d k h; simpa using h
  | cons a rest ih =>
    intro d k h
    exact ih (d.pop a) k (Dict.lookup_pop_none d a k h)

theorem foldl_pop_lookup_mem {α β : Type} [DecidableEq α]
    (l : List α) : ∀ (d : Dict α β) (k : α), k ∈ l →
      (l.foldl (fun d o => d.pop o) d).lookup k = none := by
  induction l with
  | nil => intro d k h; simp at h
  | cons a rest ih =>
    intro d k h
    by_cases hk : k ∈ rest
    · exact ih (d.pop a) k hk
    · have ha : k = a := by
        rcases List.mem_cons.1 h with h' | h'
        · exact h'
        · exact absurd h' hk
      subst ha
      exact foldl_pop_lookup_none rest (d.pop k) k (Dict.lookup_pop_self d k)

theorem mark_fd_notified_hostMeta (fs : FS) (fd ino : Nat) :
    (GenericFsync.mark_fd_notified fs fd ino).hostMeta = fs.hostMeta := by
  unfold GenericFsync.mark_fd_notified
  rcases h : fs.failed_inodes_fd_map.lookup ino with _ | s
  · rfl
  · simp only []
    split <;> rfl

theorem add_fds_to_notify_hostMeta (fs : FS) (ino : Nat) :
    (GenericFsync.add_fds_to_notify fs ino).hostMeta = fs.hostMeta := rfl

theorem btrfs_syncLoop_cons_none (bm : BlockManager) (m : MemInode)
    (off : Nat) (rest : List Nat) (h : m.offset_to_page.lookup off = none) :
    Btrfs.syncLoop bm m (off :: rest) = Btrfs.syncLoop bm m rest := by
  conv_lhs => unfold Btrfs.syncLoop
  rw [h]

theorem btrfs_syncLoop_cons_clean (bm : BlockManager) (m : MemInode)
    (off : Nat) (rest : List Nat) (p : Page)
    (h : m.offset_to_page.lookup off = some p)
    (hd : p.flag_dirty = false) :
    Btrfs.syncLoop bm m (off :: rest) = Btrfs.syncLoop bm m rest := by
  conv_lhs => unfold Btrfs.syncLoop
  rw [h]
  dsimp only
  rw [hd, if_pos rfl]

theorem btrfs_syncLoop_cons_dirty (bm : BlockManager) (m : MemInode)
    (off : Nat) (rest : List Nat) (p : Page)
    (h : m.offset_to_page.lookup off = some p)
    (hd : p.flag_dirty = true) :
    Btrfs.syncLoop bm m (off :: rest) =
      (if (Btrfs.syncDirtyStep bm m off p).1 then
        ((Btrfs.syncLoop (Btrfs.syncDirtyStep bm m off p).2.1
            (Btrfs.syncDirtyStep bm m off p).2.2.1 rest).1,
          (Btrfs.syncLoop (Btrfs.syncDirtyStep bm m off p).2.1
            (Btrfs.syncDirtyStep bm m off p).2.2.1 rest).2.1,
          (Btrfs.syncLoop (Btrfs.syncDirtyStep bm m off p).2.1
            (Btrfs.syncDirtyStep bm m off p).2.2.1 rest).2.2.1,
          (Btrfs.syncDirtyStep bm m off p).2.2.2.1 ++
            (Btrfs.syncLoop (Btrfs.syncDirtyStep bm m off p).2.1
              (Btrfs.syncDirtyStep bm m off p).2.2.1 rest).2.2.2.1,
          (Btrfs.syncDirtyStep bm m off p).2.2.2.2 ::
            (Btrfs.syncLoop (Btrfs.syncDirtyStep bm m off p).2.1
              (Btrfs.syncDirtyStep bm m off p).2.2.1 rest).2.2.2.2)
      else
        (-Errno.eio, (Btrfs.syncDirtyStep bm m off p).2.1,
          (Btrfs.syncDirtyStep bm m off p).2.2.1,
          (Btrfs.syncDirtyStep bm m off p).2.2.2.1,
          [(Btrfs.syncDirtyStep bm m off p).2.2.2.2])) := by
  conv_lhs => unfold Btrfs.syncLoop
  rw [h]
  dsimp only
  rw [hd, if_neg (by simp)]

theorem btrfs_syncLoop_ret (l : List Nat) :
    ∀ (bm : BlockManager) (m : MemInode),
      (Btrfs.syncLoop bm m l).1 = 0 ∨
      (Btrfs.syncLoop bm m l).1 = -Errno.eio := by
  induction l with
  | nil => intro bm m; left; rfl
  | cons off rest ih =>
    intro bm m
    rcases h : m.offset_to_page.lookup off with _ | p
    · rw [btrfs_syncLoop_cons_none bm m off rest h]
      exact ih bm m
    · by_cases hd : p.flag_dirty
      · rw [btrfs_syncLoop_cons_dirty bm m off rest p h hd]
        by_cases hw : (Btrfs.syncDirtyStep bm m off p).1
        · rw [if_pos hw]
          exact ih _ _
        · rw [if_neg hw]
          right; rfl
      · rw [btrfs_syncLoop_cons_clean bm m off rest p h
          (Bool.not_eq_true _ |>.mp hd)]
        exact ih bm m

theorem btrfs_sync_pages_ret (bm : BlockManager) (m : MemInode)
    (l : List Nat) :
    (Btrfs.sync_pages bm m l).1 = 0 ∨
    (Btrfs.sync_pages bm m l).1 = -Errno.eio :=
  btrfs_syncLoop_ret l bm m

/-- Claim C2: under btrfs, an `on_fsync` whose block sync fails, called
by an fd not owed a notification, returns `-EIO` and reverts the
MemInode to the last-committed on-disk state: size, atime, mtime and
`offset_to_block` are reloaded from the on-disk metadata record, which
the call leaves untouched, and every page that was dirty at entry is
evicted from `offset_to_page`. -/
theorem claim_C2_btrfs_revert (fs : FS) (fd ino : Nat) (minode : MemInode)
    (disk_meta : MetaRec)
    (hn : GenericFsync.should_notify_fd fs fd ino = false)
    (hm : fs.hostMeta.lookup minode.realpath = some disk_meta)
    (hfail : (Btrfs.sync_pages fs.bm minode minode.dirty_page_offsets).1 ≠ 0) :
    ∃ fs' minode',
      Btrfs.on_fsync fs fd ino minode =
        Except.ok (-Errno.eio, fs', minode') ∧
      minode'.size = disk_meta.size ∧
      minode'.atime = disk_meta.atime ∧
      minode'.mtime = disk_meta.mtime ∧
      minode'.offset_to_block = disk_meta.offset_to_block ∧
      fs'.hostMeta = fs.hostMeta ∧
      ∀ off ∈ minode.dirty_page_offsets,
        minode'.offset_to_page.lookup off = none := by
  have hret : (Btrfs.sync_pages fs.bm minode minode.dirty_page_offsets).1 =
      -Errno.eio := by
    rcases btrfs_sync_pages_ret fs.bm minode minode.dirty_page_offsets with h | h
    · exact absurd h hfail
    · exact h
  unfold Btrfs.on_fsync
  rw [if_neg (by simp [hn])]
  simp only [hret]
  rw [if_neg (by norm_num [Errno.eio])]
  have hm' : ({ fs with
      bm := (Btrfs.sync_pages fs.bm minode
        minode.dirty_page_offsets).2.1 } : FS).hostMeta.lookup minode.realpath
      = some disk_meta := hm
  rw [hm']
  refine ⟨_, _, rfl, rfl, rfl, rfl, rfl, ?_, ?_⟩
  · rw [mark_fd_notified_hostMeta, add_fds_to_notify_hostMeta]
  · intro off hoff
    exact foldl_pop_lookup_mem minode.dirty_page_offsets _ off hoff

/-- Claim C2 witness: concrete faulted btrfs fsync on the fixture with
one dirty page. -/
theorem claim_C2_btrfs_revert_witness :
    ∃ fs' minode',
      Btrfs.on_fsync (fxFS FsyncPolicy.btrfs) 4 7 fxInodeDirty =
        Except.ok (-Errno.eio, fs', minode') ∧
      minode'.size = fxMeta.size ∧
      minode'.atime = fxMeta.atime ∧
      minode'.mtime = fxMeta.mtime ∧
      minode'.offset_to_block = fxMeta.offset_to_block ∧
      fs'.hostMeta = (fxFS FsyncPolicy.btrfs).hostMeta ∧
      ∀ off ∈ fxInodeDirty.dirty_page_offsets,
        minode'.offset_to_page.lookup off = none :=
  claim_C2_btrfs_revert (fxFS FsyncPolicy.btrfs) 4 7 fxInodeDirty fxMeta
    (by rfl) (by rfl) (by decide)

/-! ### Claim C4: generic sync_pages discipline -/

theorem syncPageStep_pages (bm : BlockManager) (m : MemInode) (off : Nat)
    (p : Page) :
    (GenericFsync.syncPageStep bm m off p).2.2.offset_to_page =
      m.offset_to_page.set off { p with flag_dirty := false } := by
  unfold GenericFsync.syncPageStep
  rcases m.offset_to_block.lookup off <;> rfl

theorem generic_sync_cons_none (bm : BlockManager) (m : MemInode)
    (off : Nat) (rest : List Nat)
    (h : m.offset_to_page.lookup off = none) :
    GenericFsync.sync_pages bm m (off :: rest) =
      GenericFsync.sync_pages bm m rest := by
  conv_lhs => unfold GenericFsync.sync_pages
  rw [h]

theorem generic_sync_cons_clean (bm : BlockManager) (m : MemInode)
    (off : Nat) (rest : List Nat) (p : Page)
    (h : m.offset_to_page.lookup off = some p)
    (hd : p.flag_dirty = false) :
    GenericFsync.sync_pages bm m (off :: rest) =
      GenericFsync.sync_pages bm m rest := by
  conv_lhs => unfold GenericFsync.sync_pages
  rw [h]
  dsimp only
  rw [hd, if_pos rfl]

theorem generic_sync_cons_dirty (bm : BlockManager) (m : MemInode)
    (off : Nat) (rest : List Nat) (p : Page)
    (h : m.offset_to_page.lookup off = some p)
    (hd : p.flag_dirty = true) :
    GenericFsync.sync_pages bm m (off :: rest) =
      ((if (GenericFsync.syncPageStep bm m off p).1 = true then
          (GenericFsync.sync_pages (GenericFsync.syncPageStep bm m off p).2.1
            (GenericFsync.syncPageStep bm m off p).2.2 rest).1
        else -Errno.eio),
        (GenericFsync.sync_pages (GenericFsync.syncPageStep bm m off p).2.1
          (GenericFsync.syncPageStep bm m off p).2.2 rest).2.1,
        (GenericFsync.sync_pages (GenericFsync.syncPageStep bm m off p).2.1
          (GenericFsync.syncPageStep bm m off p).2.2 rest).2.2.1,
        SyncEv.clearDirty off ::
          SyncEv.bwriteAttempt off (GenericFsync.syncPageStep bm m off p).1 ::
          (GenericFsync.sync_pages (GenericFsync.syncPageStep bm m off p).2.1
            (GenericFsync.syncPageStep bm m off p).2.2 rest).2.2.2) := by
  conv_lhs => unfold GenericFsync.sync_pages
  rw [h]
  dsimp only
  rw [hd, if_neg (by simp)]
  by_cases hw : (GenericFsync.syncPageStep bm m off p).1 = true <;>
    simp [hw, Errno.eio]

/-- Content (and identity fields) of every buffered page survive the
generic sync loop; only the dirty flag can change. -/
theorem generic_sync_content_pres (l : List Nat) :
    ∀ (bm : BlockManager) (m : MemInode) (off : Nat) (p : Page),
      m.offset_to_page.lookup off = some p →
      ∃ p', (GenericFsync.sync_pages bm m
          l).2.2.1.offset_to_page.lookup off = some p' ∧
        p'.content = p.content ∧ p'.offset = p.offset ∧ p'.inode = p.inode := by
  induction l with
  | nil => intro bm m off p h; exact ⟨p, h, rfl, rfl, rfl⟩
  | cons off₀ rest ih =>
    intro bm m off p h
    rcases h₀ : m.offset_to_page.lookup off₀ with _ | p₀
    · rw [generic_sync_cons_none bm m off₀ rest h₀]
      exact ih bm m off p h
    · by_cases hd : p₀.flag_dirty
      · rw [generic_sync_cons_dirty bm m off₀ rest p₀ h₀ hd]
        dsimp only
        by_cases hoo : off = off₀
        · subst hoo
          have hp : p = p₀ := by rw [h] at h₀; exact Option.some.inj h₀
          subst hp
          have hlook : (GenericFsync.syncPageStep bm m off
              p).2.2.offset_to_page.lookup off =
              some { p with flag_dirty := false } := by
            rw [syncPageStep_pages]
            exact Dict.lookup_set_self _ _ _
          obtain ⟨p', hp', hc, hoff, hino⟩ := ih _ _ off _ hlook
          exact ⟨p', hp', hc, hoff, hino⟩
        · have hlook : (GenericFsync.syncPageStep bm m off₀
              p₀).2.2.offset_to_page.lookup off = some p := by
            rw [syncPageStep_pages]
            rw [Dict.lookup_set_ne _ _ _ _ hoo]
            exact h
          exact ih _ _ off p hlook
      · rw [generic_sync_cons_clean bm m off₀ rest p₀ h₀
          (Bool.not_eq_true _ |>.mp hd)]
        exact ih bm m off p h

/-- A page that is clean stays buffered and clean through the generic
sync loop. -/
theorem generic_sync_clean_stays (l : List Nat) :
    ∀ (bm : BlockManager) (m : MemInode) (off : Nat) (p : Page),
      m.offset_to_page.lookup off = some p → p.flag_dirty = false →
      ∃ p', (GenericFsync.sync_pages bm m
          l).2.2.1.offset_to_page.lookup off = some p' ∧
        p'.flag_dirty = false := by
  induction l with
  | nil => intro bm m off p h hc; exact ⟨p, h, hc⟩
  | cons off₀ rest ih =>
    intro bm m off p h hc
    rcases h₀ : m.offset_to_page.lookup off₀ with _ | p₀
    · rw [generic_sync_cons_none bm m off₀ rest h₀]
      exact ih bm m off p h hc
    · by_cases hd : p₀.flag_dirty
      · rw [generic_sync_cons_dirty bm m off₀ rest p₀ h₀ hd]
        dsimp only
        by_cases hoo : off = off₀
        · subst hoo
          rw [h] at h₀
          obtain rfl : p = p₀ := Option.some.inj h₀
          rw [hc] at hd
          simp at hd
        · have hlook : (GenericFsync.syncPageStep bm m off₀
              p₀).2.2.offset_to_page.lookup off = some p := by
            rw [syncPageStep_pages, Dict.lookup_set_ne _ _ _ _ hoo]
            exact h
          exact ih _ _ off p hlook hc
      · rw [generic_sync_cons_clean bm m off₀ rest p₀ h₀
          (Bool.not_eq_true _ |>.mp hd)]
        exact ih bm m off p h hc

/-- Every buffered page whose offset is in the synced list ends the
generic sync loop clean. -/
theorem generic_sync_clears (l : List Nat) :
    ∀ (bm : BlockManager) (m : MemInode) (off : Nat) (p : Page),
      off ∈ l → m.offset_to_page.lookup off = some p →
      ∃ p', (GenericFsync.sync_pages bm m
          l).2.2.1.offset_to_page.lookup off = some p' ∧
        p'.flag_dirty = false := by
  induction l with
  | nil => intro bm m off p h; simp at h
  | cons off₀ rest ih =>
    intro bm m off p hmem h
    rcases h₀ : m.offset_to_page.lookup off₀ with _ | p₀
    · rw [generic_sync_cons_none bm m off₀ rest h₀]
      rcases List.mem_cons.1 hmem with rfl | hmem'
      · rw [h] at h₀; exact absurd h₀ (by simp)
      · exact ih bm m off p hmem' h
    · by_cases hd : p₀.flag_dirty
      · rw [generic_sync_cons_dirty bm m off₀ rest p₀ h₀ hd]
        dsimp only
        by_cases hoo : off = off₀
        · subst hoo
          have hlook : (GenericFsync.syncPageStep bm m off
              p₀).2.2.offset_to_page.lookup off =
              some { p₀ with flag_dirty := false } := by
            rw [syncPageStep_pages]
            exact Dict.lookup_set_self _ _ _
          exact generic_sync_clean_stays rest _ _ off _ hlook rfl
        · have hlook : (GenericFsync.syncPageStep bm m off₀
              p₀).2.2.offset_to_page.lookup off = some p := by
            rw [syncPageStep_pages, Dict.lookup_set_ne _ _ _ _ hoo]
            exact h
          rcases List.mem_cons.1 hmem with h' | hmem'
          · exact absurd h' hoo
          · exact ih _ _ off p hmem' hlook
      · by_cases hoo : off = off₀
        · subst hoo
          rw [h] at h₀
          obtain rfl : p = p₀ := Option.some.inj h₀
          rw [generic_sync_cons_clean bm m off rest p h
            (Bool.not_eq_true _ |>.mp hd)]
          exact generic_sync_clean_stays rest _ _ off p h
            (Bool.not_eq_true _ |>.mp hd)
        · rw [generic_sync_cons_clean bm m off₀ rest p₀ h₀
            (Bool.not_eq_true _ |>.mp hd)]
          rcases List.mem_cons.1 hmem with h' | hmem'
          · exact absurd h' hoo
          · exact ih bm m off p hmem' h

/-- An unbuffered offset stays unbuffered through the generic sync
loop. -/
theorem generic_sync_none_stays (l : List Nat) :
    ∀ (bm : BlockManager) (m : MemInode) (off : Nat),
      m.offset_to_page.lookup off = none →
      (GenericFsync.sync_pages bm m l).2.2.1.offset_to_page.lookup off
        = none := by
  induction l with
  | nil => intro bm m off h; exact h
  | cons off₀ rest ih =>
    intro bm m off h
    rcases h₀ : m.offset_to_page.lookup off₀ with _ | p₀
    · rw [generic_sync_cons_none bm m off₀ rest h₀]
      exact ih bm m off h
    · by_cases hd : p₀.flag_dirty
      · rw [generic_sync_cons_dirty bm m off₀ rest p₀ h₀ hd]
        dsimp only
        have hoo : off ≠ off₀ := by
          intro he
          rw [he, h₀] at h
          exact absurd h (by simp)
        have hlook : (GenericFsync.syncPageStep bm m off₀
            p₀).2.2.offset_to_page.lookup off = none := by
          rw [syncPageStep_pages, Dict.lookup_set_ne _ _ _ _ hoo]
          exact h
        exact ih _ _ off hlook
      · rw [generic_sync_cons_clean bm m off₀ rest p₀ h₀
          (Bool.not_eq_true _ |>.mp hd)]
        exact ih bm m off h

/-- Every page dirty at entry has its clear-dirty event strictly before
its bwrite-attempt event in the trace of the generic sync loop. -/
theorem generic_sync_trace (l : List Nat) :
    ∀ (bm : BlockManager) (m : MemInode) (off : Nat) (p : Page),
      off ∈ l → m.offset_to_page.lookup off = some p →
      p.flag_dirty = true →
      ∃ ok, List.Sublist [SyncEv.clearDirty off, SyncEv.bwriteAttempt off ok]
        (GenericFsync.sync_pages bm m l).2.2.2 := by
  induction l with
  | nil => intro bm m off p h; simp at h
  | cons off₀ rest ih =>
    intro bm m off p hmem h hd
    rcases h₀ : m.offset_to_page.lookup off₀ with _ | p₀
    · rw [generic_sync_cons_none bm m off₀ rest h₀]
      rcases List.mem_cons.1 hmem with rfl | hmem'
      · rw [h] at h₀; exact absurd h₀ (by simp)
      · exact ih bm m off p hmem' h hd
    · by_cases hd₀ : p₀.flag_dirty
      · rw [generic_sync_cons_dirty bm m off₀ rest p₀ h₀ hd₀]
        dsimp only
        by_cases hoo : off = off₀
        · subst hoo
          refine ⟨(GenericFsync.syncPageStep bm m off p₀).1, ?_⟩
          exact List.Sublist.cons₂ _ (List.Sublist.cons₂ _
            (List.nil_sublist _))
        · have hlook : (GenericFsync.syncPageStep bm m off₀
              p₀).2.2.offset_to_page.lookup off = some p := by
            rw [syncPageStep_pages, Dict.lookup_set_ne _ _ _ _ hoo]
            exact h
          rcases List.mem_cons.1 hmem with h' | hmem'
          · exact absurd h' hoo
          · obtain ⟨ok, hs⟩ := ih _ _ off p hmem' hlook hd
            exact ⟨ok, hs.cons _ |>.cons _⟩
      · have hd₀' : p₀.flag_dirty = false := Bool.not_eq_true _ |>.mp hd₀
        rw [generic_sync_cons_clean bm m off₀ rest p₀ h₀ hd₀']
        rcases List.mem_cons.1 hmem with rfl | hmem'
        · rw [h] at h₀
          obtain rfl : p = p₀ := Option.some.inj h₀
          rw [hd] at hd₀'
          simp at hd₀'
        · exact ih bm m off p hmem' h hd

/-- The generic sync loop returns 0 iff every bwrite attempt in its
trace succeeded. -/
theorem generic_sync_ret_iff (l : List Nat) :
    ∀ (bm : BlockManager) (m : MemInode),
      ((GenericFsync.sync_pages bm m l).1 = 0 ↔
        ∀ ev ∈ (GenericFsync.sync_pages bm m l).2.2.2, ev.evOk = true) := by
  induction l with
  | nil => intro bm m; simp [GenericFsync.sync_pages]
  | cons off₀ rest ih =>
    intro bm m
    rcases h₀ : m.offset_to_page.lookup off₀ with _ | p₀
    · rw [generic_sync_cons_none bm m off₀ rest h₀]
      exact ih bm m
    · by_cases hd : p₀.flag_dirty
      · rw [generic_sync_cons_dirty bm m off₀ rest p₀ h₀ hd]
        dsimp only
        by_cases hw : (GenericFsync.syncPageStep bm m off₀ p₀).1 = true
        · rw [if_pos hw, hw]
          rw [ih]
          constructor
          · intro hall ev hev
            rcases List.mem_cons.1 hev with rfl | hev
            · rfl
            rcases List.mem_cons.1 hev with rfl | hev
            · rfl
            · exact hall ev hev
          · intro hall ev hev
            exact hall ev (by simp [hev])
        · rw [if_neg hw]
          have hw' : (GenericFsync.syncPageStep bm m off₀ p₀).1 = false :=
            Bool.not_eq_true _ |>.mp hw
          rw [hw']
          constructor
          · intro habs
            exact absurd habs (by norm_num [Errno.eio])
          · intro hall
            have := hall (SyncEv.bwriteAttempt off₀ false)
              (by simp)
            simp [SyncEv.evOk] at this
      · rw [generic_sync_cons_clean bm m off₀ rest p₀ h₀
          (Bool.not_eq_true _ |>.mp hd)]
        exact ih bm m

/-- A dirty buffered page's offset is in `dirty_page_offsets`. -/
theorem mem_dirty_page_offsets {m : MemInode} {off : Nat} {p : Page}
    (h : m.offset_to_page.lookup off = some p)
    (hd : p.flag_dirty = true) : off ∈ m.dirty_page_offsets := by
  unfold MemInode.dirty_page_offsets
  exact List.mem_map.2 ⟨(off, p),
    List.mem_filter.2 ⟨Dict.lookup_mem h, by simp [hd]⟩, rfl⟩

/-- The MemInode returned by the generic `on_fsync` is the one produced
by its `sync_pages` call (in both the notified and unnotified branch). -/
theorem generic_on_fsync_minode (fs : FS) (fd ino : Nat) (m : MemInode) :
    (GenericFsync.on_fsync fs fd ino m).2.2 =
      (GenericFsync.sync_pages fs.bm m m.dirty_page_offsets).2.2.1 := by
  unfold GenericFsync.on_fsync
  dsimp only
  split <;> split <;> rfl

/-- Claim C4: in `GenericFsync.sync_pages` (ext4-ordered / XFS), for
every list of pages: each page dirty at entry has its dirty flag
cleared before the bwrite attempt for it (the clear event precedes the
attempt event in the trace) and is attempted even if an earlier page's
bwrite failed; the call returns 0 iff every attempted bwrite succeeded;
every page of the list ends the call clean; hence after `on_fsync` —
success or failure — no page that was dirty at entry remains dirty. -/
theorem claim_C4_generic_sync_pages_discipline (bm : BlockManager)
    (m : MemInode) (pages : List Nat) :
    (∀ off p, off ∈ pages → m.offset_to_page.lookup off = some p →
      p.flag_dirty = true →
      ∃ ok, List.Sublist [SyncEv.clearDirty off, SyncEv.bwriteAttempt off ok]
        (GenericFsync.sync_pages bm m pages).2.2.2) ∧
    ((GenericFsync.sync_pages bm m pages).1 = 0 ↔
      ∀ ev ∈ (GenericFsync.sync_pages bm m pages).2.2.2, ev.evOk = true) ∧
    (∀ off p', off ∈ pages →
      (GenericFsync.sync_pages bm m pages).2.2.1.offset_to_page.lookup off
        = some p' → p'.flag_dirty = false) ∧
    (∀ (fs : FS) (fd ino off : Nat) (p : Page),
      m.offset_to_page.lookup off = some p → p.flag_dirty = true →
      ∀ p', (GenericFsync.on_fsync fs fd ino m).2.2.offset_to_page.lookup off
        = some p' → p'.flag_dirty = false) := by
  refine ⟨?_, generic_sync_ret_iff pages bm m, ?_, ?_⟩
  · intro off p hmem h hd
    exact generic_sync_trace pages bm m off p hmem h hd
  · intro off p' hmem hlook
    rcases h : m.offset_to_page.lookup off with _ | p
    · rw [generic_sync_none_stays pages bm m off h] at hlook
      exact absurd hlook (by simp)
    · obtain ⟨p'', hp'', hc⟩ := generic_sync_clears pages bm m off p hmem h
      rw [hp''] at hlook
      obtain rfl : p'' = p' := Option.some.inj hlook
      exact hc
  · intro fs fd ino off p h hd p' hlook
    rw [generic_on_fsync_minode] at hlook
    have hmem : off ∈ m.dirty_page_offsets := mem_dirty_page_offsets h hd
    obtain ⟨p'', hp'', hc⟩ :=
      generic_sync_clears m.dirty_page_offsets fs.bm m off p hmem h
    rw [hp''] at hlook
    obtain rfl : p'' = p' := Option.some.inj hlook
    exact hc

/-- Claim C4 witness: the fixture's dirty page at offset 0 — its clear
event precedes its attempt event, the faulted call does not return 0,
and the page ends clean after `on_fsync`. -/
theorem claim_C4_generic_sync_pages_discipline_witness :
    fxInodeDirty.offset_to_page.lookup 0 = some fxDirtyPage ∧
    fxDirtyPage.flag_dirty = true ∧
    (∃ ok, List.Sublist [SyncEv.clearDirty 0, SyncEv.bwriteAttempt 0 ok]
      (GenericFsync.sync_pages fxBm fxInodeDirty [0]).2.2.2) ∧
    ((GenericFsync.sync_pages fxBm fxInodeDirty [0]).1 = 0 ↔
      ∀ ev ∈ (GenericFsync.sync_pages fxBm fxInodeDirty [0]).2.2.2,
        ev.evOk = true) := by
  refine ⟨by rfl, by rfl, ?_, ?_⟩
  · exact (claim_C4_generic_sync_pages_discipline fxBm fxInodeDirty [0]).1
      0 fxDirtyPage (by decide) (by rfl) (by rfl)
  · exact (claim_C4_generic_sync_pages_discipline fxBm fxInodeDirty
      [0]).2.1


/-! ### Claim C6: bwrite sector loop -/

theorem bwriteStep_success (bnum : Nat) (data : List Nat) (path : String)
    (offset : Nat) (st : Bool × BlockManager × List Nat) (i : Nat) :
    (BlockManager.bwriteStep bnum data path offset st i).1 =
      (st.1 && decide
        (BlockManager.sectorOutcome st.2.1 path offset i ≠ some 'x')) := by
  rcases h : st.2.1.faulty_paths.lookup path with _ | mp
  · unfold BlockManager.bwriteStep BlockManager.sectorOutcome
      BlockManager.oracleAt
    simp only [h]
    simp
  · rcases hk : mp.lookup (offset + i * SECTOR_SZ) with _ | s
    · unfold BlockManager.bwriteStep BlockManager.sectorOutcome
        BlockManager.oracleAt
      simp only [h, hk]
      simp
    · by_cases hc : (s.next).1 = 'x'
      · unfold BlockManager.bwriteStep BlockManager.sectorOutcome
          BlockManager.oracleAt
        simp only [h, hk, hc]
        simp
        intro _
        exact hc
      · unfold BlockManager.bwriteStep BlockManager.sectorOutcome
          BlockManager.oracleAt
        simp only [h, hk]
        rw [if_neg hc]
        simp [hc]


theorem bwriteStep_oracle_self (bnum : Nat) (data : List Nat)
    (path : String) (offset : Nat) (st : Bool × BlockManager × List Nat)
    (i : Nat) :
    (BlockManager.bwriteStep bnum data path offset
        st i).2.1.oracleAt path (offset + i * SECTOR_SZ) =
      (st.2.1.oracleAt path (offset + i * SECTOR_SZ)).map
        FailSeq.advance := by
  rcases h : st.2.1.faulty_paths.lookup path with _ | mp
  · unfold BlockManager.bwriteStep BlockManager.oracleAt
    simp only [h]
    simp [h]
  · rcases hk : mp.lookup (offset + i * SECTOR_SZ) with _ | s
    · unfold BlockManager.bwriteStep BlockManager.oracleAt
      simp only [h, hk]
      simp [h, hk]
    · by_cases hc : (s.next).1 = 'x'
      · unfold BlockManager.bwriteStep BlockManager.oracleAt
        simp only [h, hk, hc]
        simp [Dict.lookup_set_self, hk, FailSeq.advance]
      · unfold BlockManager.bwriteStep BlockManager.oracleAt
        simp only [h, hk]
        rw [if_neg hc]
        simp [Dict.lookup_set_self, hk, FailSeq.advance]

theorem bwriteStep_oracle_ne (bnum : Nat) (data : List Nat)
    (path : String) (offset : Nat) (st : Bool × BlockManager × List Nat)
    (i : Nat) (k : Nat) (hne : k ≠ offset + i * SECTOR_SZ) :
    (BlockManager.bwriteStep bnum data path offset st i).2.1.oracleAt path k =
      st.2.1.oracleAt path k := by
  rcases h : st.2.1.faulty_paths.lookup path with _ | mp
  · unfold BlockManager.bwriteStep BlockManager.oracleAt
    simp only [h]
    simp [h]
  · rcases hk : mp.lookup (offset + i * SECTOR_SZ) with _ | s
    · unfold BlockManager.bwriteStep BlockManager.oracleAt
      simp only [h, hk]
      simp [h]
    · by_cases hc : (s.next).1 = 'x'
      · unfold BlockManager.bwriteStep BlockManager.oracleAt
        simp only [h, hk, hc]
        simp [Dict.lookup_set_self, Dict.lookup_set_ne _ _ _ _ hne, h]
      · unfold BlockManager.bwriteStep BlockManager.oracleAt
        simp only [h, hk]
        rw [if_neg hc]
        simp [Dict.lookup_set_self, Dict.lookup_set_ne _ _ _ _ hne, h]

theorem bwriteStep_backing_pass (bnum : Nat) (data : List Nat)
    (path : String) (offset : Nat) (st : Bool × BlockManager × List Nat)
    (i : Nat)
    (hp : BlockManager.sectorOutcome st.2.1 path offset i ≠ some 'x') :
    (BlockManager.bwriteStep bnum data path offset
        st i).2.1.backing.lookup (bnum * PAGE_SZ + i * SECTOR_SZ) =
      some ((data.drop (i * SECTOR_SZ)).take SECTOR_SZ) := by
  rcases h : st.2.1.faulty_paths.lookup path with _ | mp
  · unfold BlockManager.bwriteStep
    simp only [h]
    simp [Dict.lookup_set_self]
  · rcases hk : mp.lookup (offset + i * SECTOR_SZ) with _ | s
    · unfold BlockManager.bwriteStep
      simp only [h, hk]
      simp [Dict.lookup_set_self]
    · have hc : (s.next).1 ≠ 'x' := by
        intro hx
        apply hp
        unfold BlockManager.sectorOutcome BlockManager.oracleAt
        simp [h, hk, hx]
      unfold BlockManager.bwriteStep
      simp only [h, hk]
      rw [if_neg hc]
      simp [Dict.lookup_set_self]

theorem bwriteStep_backing_fail (bnum : Nat) (data : List Nat)
    (path : String) (offset : Nat) (st : Bool × BlockManager × List Nat)
    (i : Nat)
    (hp : BlockManager.sectorOutcome st.2.1 path offset i = some 'x') :
    (BlockManager.bwriteStep bnum data path offset st i).2.1.backing =
      st.2.1.backing := by
  rcases h : st.2.1.faulty_paths.lookup path with _ | mp
  · unfold BlockManager.sectorOutcome BlockManager.oracleAt at hp
    simp [h] at hp
  · rcases hk : mp.lookup (offset + i * SECTOR_SZ) with _ | s
    · unfold BlockManager.sectorOutcome BlockManager.oracleAt at hp
      simp [h, hk] at hp
    · have hc : (s.next).1 = 'x' := by
        unfold BlockManager.sectorOutcome BlockManager.oracleAt at hp
        simpa [h, hk] using hp
      unfold BlockManager.bwriteStep
      simp only [h, hk, hc]
      simp

theorem bwriteStep_backing_ne (bnum : Nat) (data : List Nat)
    (path : String) (offset : Nat) (st : Bool × BlockManager × List Nat)
    (i : Nat) (k : Nat) (hne : k ≠ bnum * PAGE_SZ + i * SECTOR_SZ) :
    (BlockManager.bwriteStep bnum data path offset st i).2.1.backing.lookup k
      = st.2.1.backing.lookup k := by
  rcases h : st.2.1.faulty_paths.lookup path with _ | mp
  · unfold BlockManager.bwriteStep
    simp only [h]
    simp [Dict.lookup_set_ne _ _ _ _ hne]
  · rcases hk : mp.lookup (offset + i * SECTOR_SZ) with _ | s
    · unfold BlockManager.bwriteStep
      simp only [h, hk]
      simp [Dict.lookup_set_ne _ _ _ _ hne]
    · by_cases hc : (s.next).1 = 'x'
      · unfold BlockManager.bwriteStep
        simp only [h, hk, hc]
        simp
      · unfold BlockManager.bwriteStep
        simp only [h, hk]
        rw [if_neg hc]
        simp [Dict.lookup_set_ne _ _ _ _ hne]

theorem bwriteStep_written (bnum : Nat) (data : List Nat) (path : String)
    (offset : Nat) (st : Bool × BlockManager × List Nat) (i : Nat) :
    (BlockManager.bwriteStep bnum data path offset st i).2.2 =
      st.2.2 ++ (if BlockManager.sectorOutcome st.2.1 path offset i
        = some 'x' then [] else [i]) := by
  rcases h : st.2.1.faulty_paths.lookup path with _ | mp
  · unfold BlockManager.bwriteStep BlockManager.sectorOutcome
      BlockManager.oracleAt
    simp only [h]
    simp
  · rcases hk : mp.lookup (offset + i * SECTOR_SZ) with _ | s
    · unfold BlockManager.bwriteStep BlockManager.sectorOutcome
        BlockManager.oracleAt
      simp only [h, hk]
      simp
    · by_cases hc : (s.next).1 = 'x'
      · unfold BlockManager.bwriteStep BlockManager.sectorOutcome
          BlockManager.oracleAt
        simp only [h, hk, hc]
        simp [hc]
      · unfold BlockManager.bwriteStep BlockManager.sectorOutcome
          BlockManager.oracleAt
        simp only [h, hk]
        rw [if_neg hc]
        simp [hc]

theorem sector_key_inj {offset i j : Nat}
    (h : offset + i * SECTOR_SZ = offset + j * SECTOR_SZ) : i = j := by
  have h' : i * SECTOR_SZ = j * SECTOR_SZ := Nat.add_left_cancel h
  have hpos : 0 < SECTOR_SZ := by norm_num [SECTOR_SZ]
  exact Nat.eq_of_mul_eq_mul_right hpos h'

theorem sectorOutcome_congr {bm bm' : BlockManager} {path : String}
    {offset i : Nat}
    (h : bm.oracleAt path (offset + i * SECTOR_SZ) =
      bm'.oracleAt path (offset + i * SECTOR_SZ)) :
    BlockManager.sectorOutcome bm path offset i =
      BlockManager.sectorOutcome bm' path offset i := by
  unfold BlockManager.sectorOutcome
  rw [h]


theorem listAll_congr {α : Type} {l : List α} {f g : α → Bool}
    (h : ∀ x ∈ l, f x = g x) : l.all f = l.all g := by
  induction l with
  | nil => rfl
  | cons a rest ih =>
    rw [List.all_cons, List.all_cons, h a (List.mem_cons_self _ _),
      ih (fun x hx => h x (List.mem_cons_of_mem _ hx))]

theorem bkey_inj {bnum a b : Nat}
    (h : bnum * PAGE_SZ + a * SECTOR_SZ = bnum * PAGE_SZ + b * SECTOR_SZ) :
    a = b :=
  Nat.eq_of_mul_eq_mul_right (by norm_num [SECTOR_SZ])
    (Nat.add_left_cancel h)

theorem bwriteFold (bnum : Nat) (data : List Nat) (path : String)
    (offset : Nat) :
    ∀ (is : List Nat) (st : Bool × BlockManager × List Nat),
      is.Nodup →
      ((is.foldl (BlockManager.bwriteStep bnum data path offset) st).1 =
        (st.1 && is.all (fun i => decide
          (BlockManager.sectorOutcome st.2.1 path offset i ≠ some 'x')))) ∧
      (∀ i ∈ is, (is.foldl (BlockManager.bwriteStep bnum data path offset)
          st).2.1.oracleAt path (offset + i * SECTOR_SZ) =
        (st.2.1.oracleAt path (offset + i * SECTOR_SZ)).map
          FailSeq.advance) ∧
      (∀ k, (∀ i ∈ is, k ≠ offset + i * SECTOR_SZ) →
        (is.foldl (BlockManager.bwriteStep bnum data path offset)
          st).2.1.oracleAt path k = st.2.1.oracleAt path k) ∧
      (∀ i ∈ is,
        (BlockManager.sectorOutcome st.2.1 path offset i ≠ some 'x' →
          (is.foldl (BlockManager.bwriteStep bnum data path offset)
            st).2.1.backing.lookup (bnum * PAGE_SZ + i * SECTOR_SZ) =
          some ((data.drop (i * SECTOR_SZ)).take SECTOR_SZ)) ∧
        (BlockManager.sectorOutcome st.2.1 path offset i = some 'x' →
          (is.foldl (BlockManager.bwriteStep bnum data path offset)
            st).2.1.backing.lookup (bnum * PAGE_SZ + i * SECTOR_SZ) =
          st.2.1.backing.lookup (bnum * PAGE_SZ + i * SECTOR_SZ))) ∧
      (∀ k, (∀ i ∈ is, k ≠ bnum * PAGE_SZ + i * SECTOR_SZ) →
        (is.foldl (BlockManager.bwriteStep bnum data path offset)
          st).2.1.backing.lookup k = st.2.1.backing.lookup k) ∧
      ((is.foldl (BlockManager.bwriteStep bnum data path offset) st).2.2 =
        st.2.2 ++ is.filter (fun i => decide
          (BlockManager.sectorOutcome st.2.1 path offset i ≠ some 'x'))) := by
  intro is
  induction is with
  | nil => intro st _; refine ⟨by simp, by simp, by simp, by simp, by simp,
      by simp⟩
  | cons i₀ rest ih =>
    intro st hnd
    have hnd' : rest.Nodup := (List.nodup_cons.1 hnd).2
    have hni : i₀ ∉ rest := (List.nodup_cons.1 hnd).1
    have hne_key : ∀ j ∈ rest,
        offset + j * SECTOR_SZ ≠ offset + i₀ * SECTOR_SZ :=
      fun j hj he => hni ((sector_key_inj he) ▸ hj)
    have hne_key2 : ∀ j ∈ rest,
        offset + i₀ * SECTOR_SZ ≠ offset + j * SECTOR_SZ :=
      fun j hj he => hne_key j hj he.symm
    have hne_bkey : ∀ j ∈ rest,
        bnum * PAGE_SZ + j * SECTOR_SZ ≠ bnum * PAGE_SZ + i₀ * SECTOR_SZ :=
      fun j hj he => hni ((bkey_inj he) ▸ hj)
    have hne_bkey2 : ∀ j ∈ rest,
        bnum * PAGE_SZ + i₀ * SECTOR_SZ ≠ bnum * PAGE_SZ + j * SECTOR_SZ :=
      fun j hj he => hne_bkey j hj he.symm
    set st₁ := BlockManager.bwriteStep bnum data path offset st i₀ with hst₁
    have hfold : (i₀ :: rest).foldl
        (BlockManager.bwriteStep bnum data path offset) st =
        rest.foldl (BlockManager.bwriteStep bnum data path offset) st₁ := by
      simp [hst₁]
    obtain ⟨ihA, ihB, ihC, ihD, ihE, ihF⟩ := ih st₁ hnd'
    have houtcome : ∀ j ∈ rest,
        BlockManager.sectorOutcome st₁.2.1 path offset j =
        BlockManager.sectorOutcome st.2.1 path offset j := by
      intro j hj
      exact sectorOutcome_congr
        (bwriteStep_oracle_ne bnum data path offset st i₀ _
          (hne_key j hj))
    refine ⟨?_, ?_, ?_, ?_, ?_, ?_⟩
    · have hall : (rest.all fun i => decide
          (BlockManager.sectorOutcome st₁.2.1 path offset i ≠ some 'x')) =
          (rest.all fun i => decide
          (BlockManager.sectorOutcome st.2.1 path offset i ≠ some 'x')) :=
        listAll_congr (fun j hj => by simp only [houtcome j hj])
      rw [hfold, ihA, bwriteStep_success, List.all_cons, Bool.and_assoc, hall]
    · intro i hi
      rcases List.mem_cons.1 hi with rfl | hi'
      · rw [hfold]
        rw [ihC _ (fun j hj => hne_key2 j hj)]
        exact bwriteStep_oracle_self bnum data path offset st i
      · rw [hfold, ihB i hi']
        rw [bwriteStep_oracle_ne bnum data path offset st i₀ _
          (hne_key i hi')]
    · intro k hk
      rw [hfold, ihC k (fun i hi => hk i (List.mem_cons_of_mem _ hi))]
      exact bwriteStep_oracle_ne bnum data path offset st i₀ k
        (hk i₀ (List.mem_cons_self _ _))
    · intro i hi
      rcases List.mem_cons.1 hi with rfl | hi'
      · constructor
        · intro hp
          rw [hfold]
          rw [ihE _ (fun j hj => hne_bkey2 j hj)]
          exact bwriteStep_backing_pass bnum data path offset st i hp
        · intro hp
          rw [hfold]
          rw [ihE _ (fun j hj => hne_bkey2 j hj)]
          rw [hst₁, bwriteStep_backing_fail bnum data path offset st i hp]
      · constructor
        · intro hp
          rw [hfold]
          exact (ihD i hi').1 (by rw [houtcome i hi']; exact hp)
        · intro hp
          rw [hfold]
          rw [(ihD i hi').2 (by rw [houtcome i hi']; exact hp)]
          exact bwriteStep_backing_ne bnum data path offset st i₀ _
            (hne_bkey i hi')
    · intro k hk
      rw [hfold, ihE k (fun i hi => hk i (List.mem_cons_of_mem _ hi))]
      exact bwriteStep_backing_ne bnum data path offset st i₀ k
        (hk i₀ (List.mem_cons_self _ _))
    · rw [hfold, ihF]
      rw [bwriteStep_written]
      rw [List.filter_cons]
      have hfc : rest.filter (fun i => decide
          (BlockManager.sectorOutcome st₁.2.1 path offset i ≠ some 'x')) =
          rest.filter (fun i => decide
          (BlockManager.sectorOutcome st.2.1 path offset i ≠ some 'x')) := by
        apply List.filter_congr
        intro j hj
        simp only [houtcome j hj]
      rw [hfc]
      by_cases hx : BlockManager.sectorOutcome st.2.1 path offset i₀ = some 'x'
      · simp [hx]
      · simp [hx]




theorem sizeBump_oracleAt (bm : BlockManager) (n : Nat) (pa : String)
    (k : Nat) :
    (bm.sizeBump n).oracleAt pa k = bm.oracleAt pa k := by
  unfold BlockManager.sizeBump
  split <;> rfl

theorem sizeBump_backing (bm : BlockManager) (n : Nat) (k : Nat) :
    (bm.sizeBump n).backing.lookup k = bm.backing.lookup k := by
  unfold BlockManager.sizeBump
  split <;> rfl

/-- Claim C6: `bwrite(bnum, data, (path, offset))` with PAGE_SZ bytes of
data writes the block in PAGE_SZ/SECTOR_SZ sectors; for sector `i` the
oracle at `faulty_paths[path][offset + i*SECTOR_SZ]`, if installed, is
advanced exactly once; an 'x' outcome skips that sector's 512-byte
physical write (the backing file is unchanged there), otherwise the
512-byte slice is physically written at `bnum*PAGE_SZ + i*SECTOR_SZ`;
and the call returns true iff no sector yielded 'x'. -/
theorem claim_C6_bwrite_sectors (bm : BlockManager) (bnum : Nat)
    (data : List Nat) (path : String) (offset : Nat)
    (hlen : data.length = PAGE_SZ) :
    ((bm.bwrite bnum data (path, offset)).1 = true ↔
      ∀ i < PAGE_SZ / SECTOR_SZ,
        BlockManager.sectorOutcome bm path offset i ≠ some 'x') ∧
    (∀ i < PAGE_SZ / SECTOR_SZ,
      (bm.bwrite bnum data (path, offset)).2.1.oracleAt path
          (offset + i * SECTOR_SZ) =
        (bm.oracleAt path (offset + i * SECTOR_SZ)).map FailSeq.advance) ∧
    (∀ i < PAGE_SZ / SECTOR_SZ,
      (BlockManager.sectorOutcome bm path offset i = some 'x' →
        (bm.bwrite bnum data (path, offset)).2.1.backing.lookup
          (bnum * PAGE_SZ + i * SECTOR_SZ) =
        bm.backing.lookup (bnum * PAGE_SZ + i * SECTOR_SZ)) ∧
      (BlockManager.sectorOutcome bm path offset i ≠ some 'x' →
        (bm.bwrite bnum data (path, offset)).2.1.backing.lookup
          (bnum * PAGE_SZ + i * SECTOR_SZ) =
        some ((data.drop (i * SECTOR_SZ)).take SECTOR_SZ))) ∧
    (∀ i < PAGE_SZ / SECTOR_SZ,
      ((data.drop (i * SECTOR_SZ)).take SECTOR_SZ).length = SECTOR_SZ) ∧
    ((bm.bwrite bnum data (path, offset)).2.2 =
      (List.range (PAGE_SZ / SECTOR_SZ)).filter (fun i => decide
        (BlockManager.sectorOutcome bm path offset i ≠ some 'x'))) := by
  obtain ⟨hA, hB, hC, hD, hE, hF⟩ :=
    bwriteFold bnum data path offset (List.range (PAGE_SZ / SECTOR_SZ))
      (true, bm, []) (List.nodup_range _)
  have h1 : (bm.bwrite bnum data (path, offset)).1 =
      ((List.range (PAGE_SZ / SECTOR_SZ)).foldl
        (BlockManager.bwriteStep bnum data path offset) (true, bm, [])).1 := by
    unfold BlockManager.bwrite
    dsimp only
  have h3 : (bm.bwrite bnum data (path, offset)).2.2 =
      ((List.range (PAGE_SZ / SECTOR_SZ)).foldl
        (BlockManager.bwriteStep bnum data path offset)
        (true, bm, [])).2.2 := by
    unfold BlockManager.bwrite
    dsimp only
  have h0 : (bm.bwrite bnum data (path, offset)).2.1 =
      BlockManager.sizeBump
        ((List.range (PAGE_SZ / SECTOR_SZ)).foldl
          (BlockManager.bwriteStep bnum data path offset)
          (true, bm, [])).2.1 (bnum * PAGE_SZ + PAGE_SZ) := by
    unfold BlockManager.bwrite
    dsimp only
  have h2 : ∀ k, (bm.bwrite bnum data (path, offset)).2.1.oracleAt path k =
      ((List.range (PAGE_SZ / SECTOR_SZ)).foldl
        (BlockManager.bwriteStep bnum data path offset)
        (true, bm, [])).2.1.oracleAt path k := by
    intro k
    rw [h0, sizeBump_oracleAt]
  have h4 : ∀ k,
      (bm.bwrite bnum data (path, offset)).2.1.backing.lookup k =
      ((List.range (PAGE_SZ / SECTOR_SZ)).foldl
        (BlockManager.bwriteStep bnum data path offset)
        (true, bm, [])).2.1.backing.lookup k := by
    intro k
    rw [h0, sizeBump_backing]
  refine ⟨?_, ?_, ?_, ?_, ?_⟩
  · rw [h1, hA]
    simp only [Bool.true_and, List.all_eq_true, List.mem_range,
      decide_eq_true_eq]
  · intro i hi
    rw [h2]
    exact hB i (List.mem_range.2 hi)
  · intro i hi
    exact ⟨fun hp => by rw [h4]; exact (hD i (List.mem_range.2 hi)).2 hp,
      fun hp => by rw [h4]; exact (hD i (List.mem_range.2 hi)).1 hp⟩
  · intro i hi
    have hdiv : PAGE_SZ / SECTOR_SZ = 8 := by norm_num [PAGE_SZ, SECTOR_SZ]
    rw [List.length_take, List.length_drop, hlen]
    rw [hdiv] at hi
    norm_num [PAGE_SZ, SECTOR_SZ]
    omega
  · rw [h3, hF]
    simp

/-- Claim C6 witness: the fixture block manager, which has the sticky
fail oracle on sector 0 of `/f` — writing any block for `(path /f,
logical offset 0)` fails because sector 0 yields 'x'. -/
theorem claim_C6_bwrite_sectors_witness :
    (List.replicate PAGE_SZ (98 : Nat)).length = PAGE_SZ ∧
    ((fxBm.bwrite 1 (List.replicate PAGE_SZ 98) (fxPath, 0)).1 = true ↔
      ∀ i < PAGE_SZ / SECTOR_SZ,
        BlockManager.sectorOutcome fxBm fxPath 0 i ≠ some 'x') := by
  have h := claim_C6_bwrite_sectors fxBm 1 (List.replicate PAGE_SZ 98)
    fxPath 0 (by simp)
  exact ⟨by simp, h.1⟩

/-! ### Claim C10: read is frame-preserving -/

theorem getPage_present (bm : BlockManager) (m : MemInode) (off : Nat)
    (p : Page) (h : m.offset_to_page.lookup off = some p) :
    CuttleFS.get_page_for_offset bm m off = (p, m) := by
  unfold CuttleFS.get_page_for_offset
  rw [h]

theorem getPage_absent (bm : BlockManager) (m : MemInode) (off : Nat)
    (h : m.offset_to_page.lookup off = none) :
    (CuttleFS.get_page_for_offset bm m off).2.offset_to_page =
      m.offset_to_page.set off (CuttleFS.get_page_for_offset bm m off).1 ∧
    (CuttleFS.get_page_for_offset bm m off).1.flag_dirty = false ∧
    (CuttleFS.get_page_for_offset bm m off).2.inode = m.inode ∧
    (CuttleFS.get_page_for_offset bm m off).2.path = m.path ∧
    (CuttleFS.get_page_for_offset bm m off).2.realpath = m.realpath ∧
    (CuttleFS.get_page_for_offset bm m off).2.offset_to_block =
      m.offset_to_block ∧
    (CuttleFS.get_page_for_offset bm m off).2.atime = m.atime ∧
    (CuttleFS.get_page_for_offset bm m off).2.mtime = m.mtime ∧
    (CuttleFS.get_page_for_offset bm m off).2.size = m.size := by
  unfold CuttleFS.get_page_for_offset
  rw [h]
  exact ⟨rfl, rfl, rfl, rfl, rfl, rfl, rfl, rfl, rfl⟩

theorem readLoop_zero_rem (bm : BlockManager) (fuel cur : Nat)
    (m : MemInode) (buf : List Nat) :
    CuttleFS.readLoop bm fuel cur 0 m buf = (buf, m) := by
  cases fuel <;> rfl

theorem readLoop_zero_fuel (bm : BlockManager) (cur rem : Nat)
    (m : MemInode) (buf : List Nat) :
    CuttleFS.readLoop bm 0 cur rem m buf = (buf, m) := by
  cases rem <;> rfl

theorem readLoop_step (bm : BlockManager) (fuel cur rem : Nat)
    (m : MemInode) (buf : List Nat) :
    CuttleFS.readLoop bm (fuel + 1) cur (rem + 1) m buf =
      CuttleFS.readLoop bm fuel
        (cur + (((CuttleFS.get_page_for_offset bm m
            (cur / PAGE_SZ * PAGE_SZ)).1.content.drop (cur % PAGE_SZ)).take
            (min (rem + 1) (PAGE_SZ - cur % PAGE_SZ))).length)
        ((rem + 1) - (((CuttleFS.get_page_for_offset bm m
            (cur / PAGE_SZ * PAGE_SZ)).1.content.drop (cur % PAGE_SZ)).take
            (min (rem + 1) (PAGE_SZ - cur % PAGE_SZ))).length)
        (CuttleFS.get_page_for_offset bm m (cur / PAGE_SZ * PAGE_SZ)).2
        (buf ++ ((CuttleFS.get_page_for_offset bm m
            (cur / PAGE_SZ * PAGE_SZ)).1.content.drop (cur % PAGE_SZ)).take
            (min (rem + 1) (PAGE_SZ - cur % PAGE_SZ))) := by
  rfl

theorem readLoop_frame (fuel : Nat) :
    ∀ (bm : BlockManager) (cur rem : Nat) (m : MemInode) (buf : List Nat),
      ((CuttleFS.readLoop bm fuel cur rem m buf).2.inode = m.inode ∧
       (CuttleFS.readLoop bm fuel cur rem m buf).2.path = m.path ∧
       (CuttleFS.readLoop bm fuel cur rem m buf).2.realpath = m.realpath ∧
       (CuttleFS.readLoop bm fuel cur rem m buf).2.offset_to_block =
         m.offset_to_block ∧
       (CuttleFS.readLoop bm fuel cur rem m buf).2.atime = m.atime ∧
       (CuttleFS.readLoop bm fuel cur rem m buf).2.mtime = m.mtime ∧
       (CuttleFS.readLoop bm fuel cur rem m buf).2.size = m.size) ∧
      (∀ off p, m.offset_to_page.lookup off = some p →
        (CuttleFS.readLoop bm fuel cur rem
          m buf).2.offset_to_page.lookup off = some p) ∧
      (∀ off p', (CuttleFS.readLoop bm fuel cur rem
          m buf).2.offset_to_page.lookup off = some p' →
        m.offset_to_page.lookup off = some p' ∨
        (m.offset_to_page.lookup off = none ∧ p'.flag_dirty = false)) := by
  induction fuel with
  | zero =>
    intro bm cur rem m buf
    rw [readLoop_zero_fuel]
    exact ⟨⟨rfl, rfl, rfl, rfl, rfl, rfl, rfl⟩,
      fun off p h => h, fun off p' h => Or.inl h⟩
  | succ fuel ih =>
    intro bm cur rem m buf
    cases rem with
    | zero =>
      rw [readLoop_zero_rem]
      exact ⟨⟨rfl, rfl, rfl, rfl, rfl, rfl, rfl⟩,
        fun off p h => h, fun off p' h => Or.inl h⟩
    | succ r =>
      rw [readLoop_step]
      rcases hal : m.offset_to_page.lookup (cur / PAGE_SZ * PAGE_SZ)
        with _ | p₀
      · obtain ⟨hpg, hclean, hino, hpath, hrp, hblk, hat, hmt, hsz⟩ :=
          getPage_absent bm m (cur / PAGE_SZ * PAGE_SZ) hal
        obtain ⟨ihS, ihP, ihN⟩ := ih bm _ _
          (CuttleFS.get_page_for_offset bm m (cur / PAGE_SZ * PAGE_SZ)).2
          (buf ++ _)
        refine ⟨?_, ?_, ?_⟩
        · exact ⟨ihS.1.trans hino, ihS.2.1.trans hpath, ihS.2.2.1.trans hrp,
            ihS.2.2.2.1.trans hblk, ihS.2.2.2.2.1.trans hat,
            ihS.2.2.2.2.2.1.trans hmt, ihS.2.2.2.2.2.2.trans hsz⟩
        · intro off p h
          apply ihP
          rw [hpg]
          have hne : off ≠ cur / PAGE_SZ * PAGE_SZ := by
            intro he
            rw [he, hal] at h
            exact absurd h (by simp)
          rw [Dict.lookup_set_ne _ _ _ _ hne]
          exact h
        · intro off p' h
          rcases ihN off p' h with h' | h'
          · rw [hpg] at h'
            by_cases hne : off = cur / PAGE_SZ * PAGE_SZ
            · subst hne
              rw [Dict.lookup_set_self] at h'
              right
              exact ⟨hal, (Option.some.inj h') ▸ hclean⟩
            · rw [Dict.lookup_set_ne _ _ _ _ hne] at h'
              left
              exact h'
          · rw [hpg] at h'
            by_cases hne : off = cur / PAGE_SZ * PAGE_SZ
            · subst hne
              rw [Dict.lookup_set_self] at h'
              exact absurd h'.1 (by simp)
            · rw [Dict.lookup_set_ne _ _ _ _ hne] at h'
              right
              exact ⟨h'.1, h'.2⟩
      · rw [getPage_present bm m _ p₀ hal]
        exact ih bm _ _ m (buf ++ _)

/-- Claim C10: for every `read(path, size, offset, fd)` on a cached
MemInode, the MemInode's size, atime, mtime and offset_to_block are
unchanged, every already-buffered page is preserved identically (so its
content and dirty flag are untouched), and the only change is that
pages newly materialized for the read appear in offset_to_page with
dirty flag false; every other component of the filesystem state is
unchanged. -/
theorem claim_C10_read_frame (fs : FS) (path : String) (size offset fd : Nat)
    (buf : List Nat) (fs' : FS) (ino : Nat) (rp : String) (m : MemInode)
    (hfd : fs.fd_info_map.lookup fd = some (ino, rp))
    (hc : fs.page_cache.lookup ino = some m)
    (hr : CuttleFS.read fs path size offset fd = .ok (buf, fs')) :
    fs'.bm = fs.bm ∧ fs'.hostMeta = fs.hostMeta ∧ fs'.hostIno = fs.hostIno ∧
    fs'.fd_info_map = fs.fd_info_map ∧
    fs'.inode_to_open_fds_map = fs.inode_to_open_fds_map ∧
    fs'.sync_fds = fs.sync_fds ∧
    fs'.failed_inodes_fd_map = fs.failed_inodes_fd_map ∧
    (∀ ino', ino' ≠ ino →
      fs'.page_cache.lookup ino' = fs.page_cache.lookup ino') ∧
    ∃ m', fs'.page_cache.lookup ino = some m' ∧
      m'.size = m.size ∧ m'.atime = m.atime ∧ m'.mtime = m.mtime ∧
      m'.offset_to_block = m.offset_to_block ∧
      (∀ off p, m.offset_to_page.lookup off = some p →
        m'.offset_to_page.lookup off = some p) ∧
      (∀ off p', m'.offset_to_page.lookup off = some p' →
        m.offset_to_page.lookup off = some p' ∨
        (m.offset_to_page.lookup off = none ∧ p'.flag_dirty = false)) := by
  unfold CuttleFS.read at hr
  rw [hfd] at hr
  dsimp only at hr
  rw [hc] at hr
  dsimp only at hr
  by_cases h0 : size = 0
  · rw [if_pos h0] at hr
    simp only [Except.ok.injEq, Prod.mk.injEq] at hr
    obtain ⟨-, hf⟩ := hr
    subst hf
    exact ⟨rfl, rfl, rfl, rfl, rfl, rfl, rfl, fun _ _ => rfl,
      m, hc, rfl, rfl, rfl, rfl, fun off p h => h, fun off p' h => Or.inl h⟩
  · rw [if_neg h0] at hr
    by_cases h1 : offset ≥ m.size
    · rw [if_pos h1] at hr
      simp only [Except.ok.injEq, Prod.mk.injEq] at hr
      obtain ⟨-, hf⟩ := hr
      subst hf
      exact ⟨rfl, rfl, rfl, rfl, rfl, rfl, rfl, fun _ _ => rfl,
        m, hc, rfl, rfl, rfl, rfl, fun off p h => h, fun off p' h => Or.inl h⟩
    · rw [if_neg h1] at hr
      simp only [Except.ok.injEq, Prod.mk.injEq] at hr
      obtain ⟨-, hf⟩ := hr
      subst hf
      obtain ⟨⟨-, -, -, hblk, hat, hmt, hsz⟩, hpres, hnew⟩ :=
        readLoop_frame
          (if offset + size ≥ m.size then m.size - offset else size)
          fs.bm offset
          (if offset + size ≥ m.size then m.size - offset else size) m []
      refine ⟨rfl, rfl, rfl, rfl, rfl, rfl, rfl, ?_, ?_⟩
      · intro ino' hne
        exact Dict.lookup_set_ne _ _ _ _ hne
      · exact ⟨_, Dict.lookup_set_self _ _ _,
          hsz, hat, hmt, hblk, hpres, hnew⟩

theorem claim_C10_read_frame_witness :
    c10fs.bm = (fxFS FsyncPolicy.ext4Ordered).bm ∧
    c10fs.fd_info_map = (fxFS FsyncPolicy.ext4Ordered).fd_info_map ∧
    ∃ m', c10fs.page_cache.lookup 7 = some m' ∧
      m'.size = fxInode.size ∧ m'.offset_to_block = fxInode.offset_to_block := by
  obtain ⟨h1, -, -, h4, -, -, -, -, m', hm, hsz, -, -, hblk, -, -⟩ :=
    claim_C10_read_frame (fxFS FsyncPolicy.ext4Ordered) fxPath 5 0 4
      c10buf c10fs 7 fxPath fxInode rfl rfl rfl
  exact ⟨h1, h4, m', hm, hsz, hblk⟩

/-! ### Claim C7 (amended): supporting lemmas -/

theorem readSector_len (bm : BlockManager) (hb : WFbm bm) (off : Nat) :
    (bm.readSector off).length = SECTOR_SZ := by
  unfold BlockManager.readSector
  rcases h : bm.backing.lookup off with _ | c
  · simp
  · simp only [Option.getD_some]
    exact hb _ (Dict.lookup_mem h)

theorem bread_len (bm : BlockManager) (hb : WFbm bm) (b : Nat) :
    (bm.bread b).length = PAGE_SZ := by
  unfold BlockManager.bread
  rw [List.length_flatten, List.map_map]
  simp only [Function.comp_def]
  rw [List.map_congr_left
    (fun x _ => readSector_len bm hb (b * PAGE_SZ + x * SECTOR_SZ))]
  simp [List.map_const', PAGE_SZ, SECTOR_SZ]

theorem getPage_size (bm : BlockManager) (m : MemInode) (off : Nat) :
    (CuttleFS.get_page_for_offset bm m off).2.size = m.size := by
  unfold CuttleFS.get_page_for_offset
  rcases m.offset_to_page.lookup off <;> rfl

theorem getPage_lookup_ne (bm : BlockManager) (m : MemInode) (off o : Nat)
    (h : o ≠ off) :
    (CuttleFS.get_page_for_offset bm m off).2.offset_to_page.lookup o =
      m.offset_to_page.lookup o := by
  rcases hl : m.offset_to_page.lookup off with _ | p
  · rw [(getPage_absent bm m off hl).1]
    exact Dict.lookup_set_ne _ _ _ _ h
  · rw [getPage_present bm m off p hl]

theorem getPage_len (bm : BlockManager) (m : MemInode) (off : Nat)
    (hm : WFpages m) (hb : WFbm bm) :
    (CuttleFS.get_page_for_offset bm m off).1.content.length = PAGE_SZ := by
  unfold CuttleFS.get_page_for_offset
  rcases h : m.offset_to_page.lookup off with _ | p
  · dsimp only
    rcases hbk : m.offset_to_block.lookup off with _ | b
    · simp
    · exact bread_len bm hb b
  · exact hm _ (Dict.lookup_mem h)

theorem getPage_WF (bm : BlockManager) (m : MemInode) (off : Nat)
    (hm : WFpages m) (hb : WFbm bm) :
    WFpages (CuttleFS.get_page_for_offset bm m off).2 := by
  rcases h : m.offset_to_page.lookup off with _ | p
  · intro e he
    rw [(getPage_absent bm m off h).1] at he
    rcases Dict.set_mem he with h1 | h1
    · exact hm e h1
    · rw [h1]
      exact getPage_len bm m off hm hb
  · rw [getPage_present bm m off p h]
    exact hm

theorem page_mod_lt (cur : Nat) : cur % PAGE_SZ < PAGE_SZ := by
  simp only [PAGE_SZ]
  omega

theorem page_aligned_div (cur k : Nat) (h : cur % PAGE_SZ + k < PAGE_SZ) :
    (cur + k) / PAGE_SZ * PAGE_SZ = cur / PAGE_SZ * PAGE_SZ ∧
    (cur + k) % PAGE_SZ = cur % PAGE_SZ + k := by
  simp only [PAGE_SZ] at *
  constructor <;> omega

theorem page_next_aligned (cur : Nat) :
    (cur + (PAGE_SZ - cur % PAGE_SZ)) / PAGE_SZ * PAGE_SZ =
      cur / PAGE_SZ * PAGE_SZ + PAGE_SZ := by
  simp only [PAGE_SZ]
  omega

theorem page_align_mono (a b : Nat) (h : a ≤ b) :
    a / PAGE_SZ * PAGE_SZ ≤ b / PAGE_SZ * PAGE_SZ := by
  simp only [PAGE_SZ]
  omega

theorem writeLoop_zero_rem (bm : BlockManager) (data : List Nat)
    (fuel didx cur : Nat) (m : MemInode) (dirty : List Nat) :
    CuttleFS.writeLoop bm data fuel didx cur 0 m dirty = (m, dirty, 0) := by
  cases fuel <;> rfl

theorem writeLoop_zero_fuel (bm : BlockManager) (data : List Nat)
    (didx cur rem : Nat) (m : MemInode) (dirty : List Nat) :
    CuttleFS.writeLoop bm data 0 didx cur rem m dirty = (m, dirty, rem) := by
  cases rem <;> rfl

theorem writeLoop_step (bm : BlockManager) (data : List Nat)
    (fuel didx cur rem : Nat) (m : MemInode) (dirty : List Nat) :
    CuttleFS.writeLoop bm data (fuel + 1) didx cur (rem + 1) m dirty =
      CuttleFS.writeLoop bm data fuel
        (didx + min (rem + 1) (PAGE_SZ - cur % PAGE_SZ))
        (cur + min (rem + 1) (PAGE_SZ - cur % PAGE_SZ))
        ((rem + 1) - min (rem + 1) (PAGE_SZ - cur % PAGE_SZ))
        { (CuttleFS.get_page_for_offset bm m (cur / PAGE_SZ * PAGE_SZ)).2 with
          offset_to_page :=
            (CuttleFS.get_page_for_offset bm m
              (cur / PAGE_SZ * PAGE_SZ)).2.offset_to_page.set
              (cur / PAGE_SZ * PAGE_SZ)
              { (CuttleFS.get_page_for_offset bm m
                  (cur / PAGE_SZ * PAGE_SZ)).1 with
                content := listSetSlice
                  (CuttleFS.get_page_for_offset bm m
                    (cur / PAGE_SZ * PAGE_SZ)).1.content (cur % PAGE_SZ)
                  ((data.drop didx).take
                    (min (rem + 1) (PAGE_SZ - cur % PAGE_SZ)))
                flag_dirty := true } }
        (dirty ++ [cur / PAGE_SZ * PAGE_SZ]) := rfl

theorem syncPageStep_size (bm : BlockManager) (m : MemInode) (off : Nat)
    (p : Page) :
    (GenericFsync.syncPageStep bm m off p).2.2.size = m.size := by
  unfold GenericFsync.syncPageStep
  rcases m.offset_to_block.lookup off <;> rfl

theorem generic_sync_size (l : List Nat) :
    ∀ (bm : BlockManager) (m : MemInode),
      (GenericFsync.sync_pages bm m l).2.2.1.size = m.size := by
  induction l with
  | nil => intro bm m; rfl
  | cons off₀ rest ih =>
    intro bm m
    rcases h₀ : m.offset_to_page.lookup off₀ with _ | p₀
    · rw [generic_sync_cons_none bm m off₀ rest h₀]
      exact ih bm m
    · by_cases hd : p₀.flag_dirty
      · rw [generic_sync_cons_dirty bm m off₀ rest p₀ h₀ hd]
        dsimp only
        exact (ih _ _).trans (syncPageStep_size bm m off₀ p₀)
      · rw [generic_sync_cons_clean bm m off₀ rest p₀ h₀
          (Bool.not_eq_true _ |>.mp hd)]
        exact ih bm m

theorem syncDirtyStep_pages (bm : BlockManager) (m : MemInode) (off : Nat)
    (p : Page) :
    (Btrfs.syncDirtyStep bm m off p).2.2.1.offset_to_page =
      m.offset_to_page.set off { p with flag_dirty := false } := by
  unfold Btrfs.syncDirtyStep
  rcases m.offset_to_block.lookup off <;> rfl

theorem syncDirtyStep_size (bm : BlockManager) (m : MemInode) (off : Nat)
    (p : Page) :
    (Btrfs.syncDirtyStep bm m off p).2.2.1.size = m.size := by
  unfold Btrfs.syncDirtyStep
  rcases m.offset_to_block.lookup off <;> rfl

theorem btrfs_syncLoop_size (l : List Nat) :
    ∀ (bm : BlockManager) (m : MemInode),
      (Btrfs.syncLoop bm m l).2.2.1.size = m.size := by
  induction l with
  | nil => intro bm m; rfl
  | cons off₀ rest ih =>
    intro bm m
    rcases h₀ : m.offset_to_page.lookup off₀ with _ | p₀
    · rw [btrfs_syncLoop_cons_none bm m off₀ rest h₀]
      exact ih bm m
    · by_cases hd : p₀.flag_dirty
      · rw [btrfs_syncLoop_cons_dirty bm m off₀ rest p₀ h₀ hd]
        by_cases hs : (Btrfs.syncDirtyStep bm m off₀ p₀).1 = true
        · rw [if_pos hs]
          dsimp only
          exact (ih _ _).trans (syncDirtyStep_size bm m off₀ p₀)
        · rw [if_neg hs]
          exact syncDirtyStep_size bm m off₀ p₀
      · rw [btrfs_syncLoop_cons_clean bm m off₀ rest p₀ h₀
          (Bool.not_eq_true _ |>.mp hd)]
        exact ih bm m

theorem btrfs_syncLoop_content_pres (l : List Nat) :
    ∀ (bm : BlockManager) (m : MemInode) (off : Nat) (p : Page),
      m.offset_to_page.lookup off = some p →
      ∃ p', (Btrfs.syncLoop bm m
          l).2.2.1.offset_to_page.lookup off = some p' ∧
        p'.content = p.content := by
  induction l with
  | nil => intro bm m off p h; exact ⟨p, h, rfl⟩
  | cons off₀ rest ih =>
    intro bm m off p h
    rcases h₀ : m.offset_to_page.lookup off₀ with _ | p₀
    · rw [btrfs_syncLoop_cons_none bm m off₀ rest h₀]
      exact ih bm m off p h
    · by_cases hd : p₀.flag_dirty
      · rw [btrfs_syncLoop_cons_dirty bm m off₀ rest p₀ h₀ hd]
        have hstep : ∀ q, m.offset_to_page.lookup off = some q →
            ∃ q', (Btrfs.syncDirtyStep bm m off₀
                p₀).2.2.1.offset_to_page.lookup off = some q' ∧
              q'.content = q.content := by
          intro q hq
          rw [syncDirtyStep_pages]
          by_cases hoo : off = off₀
          · subst hoo
            rw [hq] at h₀
            refine ⟨{ q with flag_dirty := false }, ?_, rfl⟩
            rw [Option.some.inj h₀]
            exact Dict.lookup_set_self _ _ _
          · rw [Dict.lookup_set_ne _ _ _ _ hoo]
            exact ⟨q, hq, rfl⟩
        by_cases hs : (Btrfs.syncDirtyStep bm m off₀ p₀).1 = true
        · rw [if_pos hs]
          dsimp only
          obtain ⟨q', hq', hc⟩ := hstep p h
          obtain ⟨p', hp', hc'⟩ := ih _ _ off q' hq'
          exact ⟨p', hp', hc'.trans hc⟩
        · rw [if_neg hs]
          exact hstep p h
      · rw [btrfs_syncLoop_cons_clean bm m off₀ rest p₀ h₀
          (Bool.not_eq_true _ |>.mp hd)]
        exact ih bm m off p h

theorem btrfs_sync_pages_minode (bm : BlockManager) (m : MemInode)
    (l : List Nat) :
    (Btrfs.sync_pages bm m l).2.2 = (Btrfs.syncLoop bm m l).2.2.1 := rfl

theorem sync_meta_fd_map (fs : FS) (m : MemInode) :
    (GenericFsync.sync_meta fs m).fd_info_map = fs.fd_info_map := rfl

theorem sync_meta_page_cache (fs : FS) (m : MemInode) :
    (GenericFsync.sync_meta fs m).page_cache = fs.page_cache := rfl

theorem add_fds_fd_map (fs : FS) (ino : Nat) :
    (GenericFsync.add_fds_to_notify fs ino).fd_info_map = fs.fd_info_map := rfl

theorem add_fds_page_cache (fs : FS) (ino : Nat) :
    (GenericFsync.add_fds_to_notify fs ino).page_cache = fs.page_cache := rfl

theorem mark_fd_fd_map (fs : FS) (fd ino : Nat) :
    (GenericFsync.mark_fd_notified fs fd ino).fd_info_map =
      fs.fd_info_map := by
  unfold GenericFsync.mark_fd_notified
  rcases fs.failed_inodes_fd_map.lookup ino with _ | l
  · rfl
  · dsimp only
    split <;> rfl

theorem mark_fd_page_cache (fs : FS) (fd ino : Nat) :
    (GenericFsync.mark_fd_notified fs fd ino).page_cache =
      fs.page_cache := by
  unfold GenericFsync.mark_fd_notified
  rcases fs.failed_inodes_fd_map.lookup ino with _ | l
  · rfl
  · dsimp only
    split <;> rfl

theorem generic_on_fsync_fd_map (fs : FS) (fd ino : Nat) (m : MemInode) :
    (GenericFsync.on_fsync fs fd ino m).2.1.fd_info_map =
      fs.fd_info_map := by
  unfold GenericFsync.on_fsync
  dsimp only
  split
  · split
    · rw [mark_fd_fd_map, add_fds_fd_map, sync_meta_fd_map]
    · rw [add_fds_fd_map, sync_meta_fd_map]
  · split
    · rw [mark_fd_fd_map, sync_meta_fd_map]
    · rw [sync_meta_fd_map]

theorem generic_on_fsync_page_cache (fs : FS) (fd ino : Nat) (m : MemInode) :
    (GenericFsync.on_fsync fs fd ino m).2.1.page_cache =
      fs.page_cache := by
  unfold GenericFsync.on_fsync
  dsimp only
  split
  · split
    · rw [mark_fd_page_cache, add_fds_page_cache, sync_meta_page_cache]
    · rw [add_fds_page_cache, sync_meta_page_cache]
  · split
    · rw [mark_fd_page_cache, sync_meta_page_cache]
    · rw [sync_meta_page_cache]

theorem ext4data_on_fsync_pres (fs : FS) (fd ino : Nat) (m : MemInode) :
    (Ext4Data.on_fsync fs fd ino m).2.1.fd_info_map = fs.fd_info_map ∧
    (Ext4Data.on_fsync fs fd ino m).2.1.page_cache = fs.page_cache ∧
    (Ext4Data.on_fsync fs fd ino m).2.2.size = m.size ∧
    pagesContentPres m (Ext4Data.on_fsync fs fd ino m).2.2 := by
  unfold Ext4Data.on_fsync
  dsimp only
  split
  · exact ⟨mark_fd_fd_map _ _ _, mark_fd_page_cache _ _ _, rfl,
      fun o p hp => ⟨p, hp, rfl⟩⟩
  · refine ⟨?_, ?_, ?_, ?_⟩
    · split
      · rw [add_fds_fd_map, sync_meta_fd_map]
      · rw [sync_meta_fd_map]
    · split
      · rw [add_fds_page_cache, sync_meta_page_cache]
      · rw [sync_meta_page_cache]
    · exact generic_sync_size _ _ _
    · intro o p hp
      obtain ⟨p', hp', hc, -, -⟩ := generic_sync_content_pres _ _ _ o p hp
      exact ⟨p', hp', hc⟩

theorem btrfs_on_fsync_ok_pres (fs : FS) (fd ino : Nat) (m : MemInode)
    (r : Int × FS × MemInode)
    (hb : Btrfs.on_fsync fs fd ino m = Except.ok r) (hr : r.1 = 0) :
    r.2.1.fd_info_map = fs.fd_info_map ∧
    r.2.1.page_cache = fs.page_cache ∧
    r.2.2.size = m.size ∧ pagesContentPres m r.2.2 := by
  unfold Btrfs.on_fsync at hb
  by_cases hn : GenericFsync.should_notify_fd fs fd ino = true
  · rw [if_pos hn] at hb
    simp only [Except.ok.injEq] at hb
    rw [← hb] at hr
    exact absurd hr (by norm_num [Errno.eio])
  · rw [if_neg hn] at hb
    dsimp only at hb
    by_cases hz : (Btrfs.sync_pages fs.bm m m.dirty_page_offsets).1 = 0
    · rw [if_pos hz] at hb
      simp only [Except.ok.injEq] at hb
      subst hb
      refine ⟨?_, ?_, ?_, ?_⟩
      · rw [sync_meta_fd_map]
      · rw [sync_meta_page_cache]
      · rw [btrfs_sync_pages_minode]
        exact btrfs_syncLoop_size _ _ _
      · intro o p hp
        rw [btrfs_sync_pages_minode]
        exact btrfs_syncLoop_content_pres _ _ _ o p hp
    · rw [if_neg hz] at hb
      rcases hm : fs.hostMeta.lookup m.realpath with _ | dm
      · rw [hm] at hb
        cases hb
      · rw [hm] at hb
        dsimp only at hb
        simp only [Except.ok.injEq] at hb
        subst hb
        exact absurd hr hz

theorem fsync_pres (fs : FS) (g : Nat) (r : Int) (fs' : FS)
    (h : CuttleFS.fsync fs g = Except.ok (r, fs')) (hr : r = 0) :
    fs'.fd_info_map = fs.fd_info_map ∧
    ∀ ino m, fs.page_cache.lookup ino = some m →
      ∃ m', fs'.page_cache.lookup ino = some m' ∧
        m'.size = m.size ∧ pagesContentPres m m' := by
  unfold CuttleFS.fsync at h
  rcases hfd : fs.fd_info_map.lookup g with _ | fdi
  · rw [hfd] at h
    cases h
  · rw [hfd] at h
    dsimp only at h
    rcases hpc : fs.page_cache.lookup fdi.1 with _ | m₀
    · rw [hpc] at h
      simp only [Except.ok.injEq, Prod.mk.injEq] at h
      obtain ⟨-, hfs⟩ := h
      subst hfs
      exact ⟨rfl, fun ino m hm => ⟨m, hm, rfl, fun o p hp => ⟨p, hp, rfl⟩⟩⟩
    · rw [hpc] at h
      have hmain : ∀ (fsr : FS) (mr : MemInode),
          fsr.fd_info_map = fs.fd_info_map →
          fsr.page_cache = fs.page_cache →
          mr.size = m₀.size → pagesContentPres m₀ mr →
          fs' = { fsr with page_cache := fsr.page_cache.set fdi.1 mr } →
          fs'.fd_info_map = fs.fd_info_map ∧
          ∀ ino m, fs.page_cache.lookup ino = some m →
            ∃ m', fs'.page_cache.lookup ino = some m' ∧
              m'.size = m.size ∧ pagesContentPres m m' := by
        intro fsr mr h1 h2 h3 h4 h5
        subst h5
        refine ⟨h1, ?_⟩
        intro ino m hm
        by_cases hio : ino = fdi.1
        · subst hio
          have hmm : m = m₀ := by
            rw [hm] at hpc
            exact Option.some.inj hpc
          subst hmm
          exact ⟨mr, by
            dsimp only
            exact Dict.lookup_set_self _ _ _, h3, h4⟩
        · exact ⟨m, by
            dsimp only
            rw [Dict.lookup_set_ne _ _ _ _ hio, h2]
            exact hm, rfl, fun o p hp => ⟨p, hp, rfl⟩⟩
      rcases hpol : fs.policy with _ | _ | _ | _
      · rw [hpol] at h
        simp only [Except.ok.injEq, Prod.mk.injEq] at h
        obtain ⟨-, hfs⟩ := h
        exact hmain _ _ (generic_on_fsync_fd_map fs g fdi.1 m₀)
          (generic_on_fsync_page_cache fs g fdi.1 m₀)
          (by rw [generic_on_fsync_minode]; exact generic_sync_size _ _ _)
          (by
            rw [generic_on_fsync_minode]
            intro o p hp
            obtain ⟨p', hp', hc, -, -⟩ :=
              generic_sync_content_pres _ _ _ o p hp
            exact ⟨p', hp', hc⟩)
          hfs.symm
      · rw [hpol] at h
        simp only [Except.ok.injEq, Prod.mk.injEq] at h
        obtain ⟨-, hfs⟩ := h
        exact hmain _ _ (generic_on_fsync_fd_map fs g fdi.1 m₀)
          (generic_on_fsync_page_cache fs g fdi.1 m₀)
          (by rw [generic_on_fsync_minode]; exact generic_sync_size _ _ _)
          (by
            rw [generic_on_fsync_minode]
            intro o p hp
            obtain ⟨p', hp', hc, -, -⟩ :=
              generic_sync_content_pres _ _ _ o p hp
            exact ⟨p', hp', hc⟩)
          hfs.symm
      · rw [hpol] at h
        simp only [Except.ok.injEq, Prod.mk.injEq] at h
        obtain ⟨-, hfs⟩ := h
        obtain ⟨h1, h2, h3, h4⟩ := ext4data_on_fsync_pres fs g fdi.1 m₀
        exact hmain _ _ h1 h2 h3 h4 hfs.symm
      · rw [hpol] at h
        dsimp only at h
        rcases hb : Btrfs.on_fsync fs g fdi.1 m₀ with e | r₀
        · rw [hb] at h
          cases h
        · rw [hb] at h
          dsimp only at h
          simp only [Except.ok.injEq, Prod.mk.injEq] at h
          obtain ⟨hr1, hfs⟩ := h
          obtain ⟨h1, h2, h3, h4⟩ := btrfs_on_fsync_ok_pres fs g fdi.1 m₀ r₀
            hb (by rw [hr1, hr])
          exact hmain _ _ h1 h2 h3 h4 hfs.symm

theorem fsyncChain_cons (fs : FS) (fd : Nat) (rest : List Nat) :
    CuttleFS.fsyncChain fs (fd :: rest) =
      match CuttleFS.fsync fs fd with
      | .error e => .error e
      | .ok (r, fs₁) =>
        match CuttleFS.fsyncChain fs₁ rest with
        | .error e => .error e
        | .ok (rs, fs₂) => .ok (r :: rs, fs₂) := rfl

theorem fsyncChain_pres (fds : List Nat) :
    ∀ (fs : FS) (rets : List Int) (fs₂ : FS),
      CuttleFS.fsyncChain fs fds = Except.ok (rets, fs₂) →
      (∀ r ∈ rets, r = 0) →
      fs₂.fd_info_map = fs.fd_info_map ∧
      ∀ ino m, fs.page_cache.lookup ino = some m →
        ∃ m', fs₂.page_cache.lookup ino = some m' ∧
          m'.size = m.size ∧ pagesContentPres m m' := by
  induction fds with
  | nil =>
    intro fs rets fs₂ h hz
    unfold CuttleFS.fsyncChain at h
    simp only [Except.ok.injEq, Prod.mk.injEq] at h
    obtain ⟨-, hfs⟩ := h
    subst hfs
    exact ⟨rfl, fun ino m hm => ⟨m, hm, rfl, fun o p hp => ⟨p, hp, rfl⟩⟩⟩
  | cons fd rest ih =>
    intro fs rets fs₂ h hz
    rw [fsyncChain_cons] at h
    rcases hf : CuttleFS.fsync fs fd with e | p
    · rw [hf] at h
      cases h
    · rw [hf] at h
      rcases p with ⟨r, fs₁⟩
      dsimp only at h
      rcases hc : CuttleFS.fsyncChain fs₁ rest with e | q
      · rw [hc] at h
        cases h
      · rw [hc] at h
        rcases q with ⟨rs, fs₂'⟩
        dsimp only at h
        simp only [Except.ok.injEq, Prod.mk.injEq] at h
        obtain ⟨hrets, hfs⟩ := h
        subst hfs
        have hr0 : r = 0 := hz r (by rw [← hrets]; exact List.mem_cons_self _ _)
        have hz' : ∀ r' ∈ rs, r' = 0 := by
          intro r' hr'
          exact hz r' (by rw [← hrets]; exact List.mem_cons_of_mem _ hr')
        obtain ⟨hstep_fd, hstep_pc⟩ := fsync_pres fs fd r fs₁ hf hr0
        obtain ⟨hrest_fd, hrest_pc⟩ := ih fs₁ rs fs₂' hc hz'
        refine ⟨hrest_fd.trans hstep_fd, ?_⟩
        intro ino m hm
        obtain ⟨m₁, hm₁, hs₁, hp₁⟩ := hstep_pc ino m hm
        obtain ⟨m₂, hm₂, hs₂, hp₂⟩ := hrest_pc ino m₁ hm₁
        refine ⟨m₂, hm₂, hs₂.trans hs₁, ?_⟩
        intro o p hp
        obtain ⟨p₁, hpp₁, hc₁⟩ := hp₁ o p hp
        obtain ⟨p₂, hpp₂, hc₂⟩ := hp₂ o p₁ hpp₁
        exact ⟨p₂, hpp₂, hc₂.trans hc₁⟩

theorem writeLoop_main (fuel : Nat) :
    ∀ (bm : BlockManager) (data : List Nat) (didx cur rem : Nat)
      (m : MemInode) (dirty : List Nat),
      rem ≤ fuel → didx + rem = data.length →
      WFpages m → WFbm bm →
      (CuttleFS.writeLoop bm data fuel didx cur rem m dirty).2.2 = 0 ∧
      WFpages (CuttleFS.writeLoop bm data fuel didx cur rem m dirty).1 ∧
      (CuttleFS.writeLoop bm data fuel didx cur rem m dirty).1.size =
        m.size ∧
      (∀ o, o < cur / PAGE_SZ * PAGE_SZ →
        (CuttleFS.writeLoop bm data fuel didx cur rem m
          dirty).1.offset_to_page.lookup o = m.offset_to_page.lookup o) ∧
      (∀ k, k < rem →
        ∃ p, (CuttleFS.writeLoop bm data fuel didx cur rem m
            dirty).1.offset_to_page.lookup
            ((cur + k) / PAGE_SZ * PAGE_SZ) = some p ∧
          p.content.length = PAGE_SZ ∧
          p.content.getD ((cur + k) % PAGE_SZ) 0 = data.getD (didx + k) 0) := by
  induction fuel with
  | zero =>
    intro bm data didx cur rem m dirty hfuel hidx hWF hbm
    have hrem : rem = 0 := Nat.le_zero.mp hfuel
    subst hrem
    rw [writeLoop_zero_rem]
    exact ⟨rfl, hWF, rfl, fun o _ => rfl, fun k hk => absurd hk (by omega)⟩
  | succ fuel ih =>
    intro bm data didx cur rem m dirty hfuel hidx hWF hbm
    cases rem with
    | zero =>
      rw [writeLoop_zero_rem]
      exact ⟨rfl, hWF, rfl, fun o _ => rfl, fun k hk => absurd hk (by omega)⟩
    | succ r =>
      rw [writeLoop_step]
      set al := cur / PAGE_SZ * PAGE_SZ with hal
      set pg := min (r + 1) (PAGE_SZ - cur % PAGE_SZ) with hpg
      set g := CuttleFS.get_page_for_offset bm m al with hg
      set p₂ : Page :=
        { g.1 with
          content := listSetSlice g.1.content (cur % PAGE_SZ)
            ((data.drop didx).take pg)
          flag_dirty := true } with hp₂
      set M₂ : MemInode :=
        { g.2 with offset_to_page := g.2.offset_to_page.set al p₂ }
        with hM₂
      have hs : cur % PAGE_SZ < PAGE_SZ := page_mod_lt cur
      have hpg1 : 1 ≤ pg := by
        rw [hpg]
        omega
      have hpgle : pg ≤ r + 1 := by
        rw [hpg]
        exact Nat.min_le_left _ _
      have hpgright : pg ≤ PAGE_SZ - cur % PAGE_SZ := by
        rw [hpg]
        exact Nat.min_le_right _ _
      have hglen : g.1.content.length = PAGE_SZ := by
        rw [hg]
        exact getPage_len bm m al hWF hbm
      have hrepl : ((data.drop didx).take pg).length = pg := by
        rw [List.length_take, List.length_drop]
        omega
      have hp₂len : p₂.content.length = PAGE_SZ := by
        rw [hp₂]
        dsimp only
        rw [length_listSetSlice (by rw [hrepl, hglen]; omega)]
        exact hglen
      have hWFM : WFpages M₂ := by
        rw [hM₂]
        intro e he
        dsimp only at he
        rcases Dict.set_mem he with h1 | h1
        · rw [hg] at h1
          exact getPage_WF bm m al hWF hbm e h1
        · rw [h1]
          exact hp₂len
      have hM₂sz : M₂.size = m.size := by
        rw [hM₂]
        dsimp only
        rw [hg]
        exact getPage_size bm m al
      have hM₂ne : ∀ o, o ≠ al →
          M₂.offset_to_page.lookup o = m.offset_to_page.lookup o := by
        intro o ho
        rw [hM₂]
        dsimp only
        rw [Dict.lookup_set_ne _ _ _ _ ho, hg]
        exact getPage_lookup_ne bm m al o ho
      have hM₂self : M₂.offset_to_page.lookup al = some p₂ := by
        rw [hM₂]
        dsimp only
        exact Dict.lookup_set_self _ _ _
      have hidx' : (didx + pg) + (r + 1 - pg) = data.length := by omega
      have hfuel' : r + 1 - pg ≤ fuel := by omega
      obtain ⟨ih0, ihWF, ihsz, ihfr, ihcov⟩ :=
        ih bm data (didx + pg) (cur + pg) (r + 1 - pg) M₂ (dirty ++ [al])
          hfuel' hidx' hWFM hbm
      have halign : al ≤ (cur + pg) / PAGE_SZ * PAGE_SZ := by
        rw [hal]
        exact page_align_mono cur (cur + pg) (Nat.le_add_right _ _)
      have hlookal : (CuttleFS.writeLoop bm data fuel (didx + pg) (cur + pg)
          (r + 1 - pg) M₂ (dirty ++ [al])).1.offset_to_page.lookup al =
          some p₂ := by
        by_cases h0 : r + 1 - pg = 0
        · rw [h0, writeLoop_zero_rem]
          exact hM₂self
        · have hpgfull : pg = PAGE_SZ - cur % PAGE_SZ := by
            rw [hpg]
            exact Nat.min_eq_right (by omega)
          have hal₁ : (cur + pg) / PAGE_SZ * PAGE_SZ = al + PAGE_SZ := by
            rw [hpgfull, hal]
            exact page_next_aligned cur
          rw [ihfr al (by
            rw [hal₁]
            simp only [PAGE_SZ]
            omega)]
          exact hM₂self
      refine ⟨ih0, ihWF, ihsz.trans hM₂sz, ?_, ?_⟩
      · intro o ho
        rw [ihfr o (lt_of_lt_of_le ho halign)]
        exact hM₂ne o (Nat.ne_of_lt ho)
      · intro k hk
        by_cases hkpg : k < pg
        · have hc := page_aligned_div cur k (by omega)
          rw [hc.1, hc.2]
          refine ⟨p₂, hlookal, hp₂len, ?_⟩
          rw [hp₂]
          dsimp only
          rw [getD_listSetSlice_inside 0 (by rw [hrepl, hglen]; omega)
            (by rw [hrepl]; exact hkpg)]
          rw [sliceGetD_take 0 hkpg, sliceGetD_drop 0]
        · obtain ⟨p, hp, hl, hgd⟩ := ihcov (k - pg) (by omega)
          have he1 : cur + pg + (k - pg) = cur + k := by omega
          have he2 : didx + pg + (k - pg) = didx + k := by omega
          rw [he1] at hp hgd
          rw [he2] at hgd
          exact ⟨p, hp, hl, hgd⟩

theorem readLoop_covers (fuel : Nat) :
    ∀ (bm : BlockManager) (cur rem : Nat) (m : MemInode) (buf : List Nat),
      rem ≤ fuel →
      (∀ k, k < rem → ∃ p,
        m.offset_to_page.lookup ((cur + k) / PAGE_SZ * PAGE_SZ) = some p ∧
        p.content.length = PAGE_SZ) →
      (CuttleFS.readLoop bm fuel cur rem m buf).1 =
        buf ++ (List.range rem).map (fun k => readByte m (cur + k)) := by
  induction fuel with
  | zero =>
    intro bm cur rem m buf hfuel hcov
    have hrem : rem = 0 := Nat.le_zero.mp hfuel
    subst hrem
    rw [readLoop_zero_fuel]
    simp
  | succ fuel ih =>
    intro bm cur rem m buf hfuel hcov
    cases rem with
    | zero =>
      rw [readLoop_zero_rem]
      simp
    | succ r =>
      rw [readLoop_step]
      obtain ⟨p, hp0, hplen⟩ := hcov 0 (by omega)
      simp only [Nat.add_zero] at hp0
      rw [getPage_present bm m (cur / PAGE_SZ * PAGE_SZ) p hp0]
      dsimp only
      set pg := min (r + 1) (PAGE_SZ - cur % PAGE_SZ) with hpg
      have hs : cur % PAGE_SZ < PAGE_SZ := page_mod_lt cur
      have hpg1 : 1 ≤ pg := by
        rw [hpg]
        omega
      have hpgle : pg ≤ r + 1 := by
        rw [hpg]
        exact Nat.min_le_left _ _
      have hpgright : pg ≤ PAGE_SZ - cur % PAGE_SZ := by
        rw [hpg]
        exact Nat.min_le_right _ _
      have hd_len : ((p.content.drop (cur % PAGE_SZ)).take pg).length = pg := by
        rw [List.length_take, List.length_drop, hplen]
        omega
      have hdeq : (p.content.drop (cur % PAGE_SZ)).take pg =
          (List.range pg).map (fun k => readByte m (cur + k)) := by
        apply List.ext_getElem
        · rw [hd_len]
          simp
        · intro j h1 h2
          rw [hd_len] at h1
          simp only [List.getElem_map, List.getElem_range]
          have hjlt : cur % PAGE_SZ + j < PAGE_SZ := by omega
          rw [List.getElem_take, List.getElem_drop]
          unfold readByte
          rw [(page_aligned_div cur j hjlt).1, (page_aligned_div cur j hjlt).2,
            hp0]
          dsimp only
          rw [List.getD_eq_getElem p.content 0 (by omega)]
      have hcov' : ∀ k, k < r + 1 - pg → ∃ q,
          m.offset_to_page.lookup ((cur + pg + k) / PAGE_SZ * PAGE_SZ) =
            some q ∧ q.content.length = PAGE_SZ := by
        intro k hk
        obtain ⟨q, hq, hl⟩ := hcov (pg + k) (by omega)
        rw [show cur + (pg + k) = cur + pg + k by omega] at hq
        exact ⟨q, hq, hl⟩
      rw [hd_len]
      rw [ih bm (cur + pg) (r + 1 - pg) m
        (buf ++ (p.content.drop (cur % PAGE_SZ)).take pg) (by omega) hcov']
      rw [hdeq, List.append_assoc]
      congr 1
      have hmaps : (List.range (r + 1 - pg)).map
          (fun k => readByte m (cur + pg + k)) =
          (List.range (r + 1 - pg)).map ((fun k => readByte m (cur + k)) ∘
            (fun x => pg + x)) :=
        List.map_congr_left (fun x _ => by
          dsimp only [Function.comp_def]
          rw [Nat.add_assoc])
      rw [hmaps, ← List.map_map, ← List.map_append, ← List.range_add]
      rw [show pg + (r + 1 - pg) = r + 1 by omega]

theorem write_hit_main (fs₁ : FS) (m₀ : MemInode) (path : String)
    (D : List Nat) (off fd : Nat) (fdi : Nat × String) (n : Int) (st₁ : FS)
    (hfd : fs₁.fd_info_map.lookup fd = some fdi)
    (hlook : fs₁.page_cache.lookup fdi.1 = some m₀)
    (hWFm : WFpages m₀) (hbm : WFbm fs₁.bm)
    (hw : CuttleFS.write fs₁ path D off fd = Except.ok (n, st₁)) :
    st₁.fd_info_map = fs₁.fd_info_map ∧
    ∃ m₃, st₁.page_cache.lookup fdi.1 = some m₃ ∧
      (D = [] ∨
        ((∀ k, k < D.length → ∃ p,
          m₃.offset_to_page.lookup ((off + k) / PAGE_SZ * PAGE_SZ) =
            some p ∧
          p.content.length = PAGE_SZ ∧
          p.content.getD ((off + k) % PAGE_SZ) 0 = D.getD k 0) ∧
        off + D.length ≤ m₃.size)) := by
  unfold CuttleFS.write at hw
  rw [hfd] at hw
  dsimp only at hw
  rw [hlook] at hw
  dsimp only at hw
  by_cases hD : D.length = 0
  · rw [if_pos hD] at hw
    simp only [Except.ok.injEq, Prod.mk.injEq] at hw
    obtain ⟨-, hst⟩ := hw
    subst hst
    exact ⟨rfl, m₀, hlook, Or.inl (List.length_eq_zero.mp hD)⟩
  · rw [if_neg hD] at hw
    by_cases hsync : decide (fd ∈ fs₁.sync_fds) = true
    · rw [if_pos hsync] at hw
      cases hw
    · rw [if_neg hsync] at hw
      simp only [Except.ok.injEq, Prod.mk.injEq] at hw
      obtain ⟨-, hst⟩ := hw
      subst hst
      obtain ⟨w0, wWF, wsz, wfr, wcov⟩ :=
        writeLoop_main D.length fs₁.bm D 0 off D.length m₀ []
          (Nat.le_refl _) (Nat.zero_add _) hWFm hbm
      simp only [Nat.zero_add] at wcov
      rw [w0]
      simp only [Nat.sub_zero]
      have hpag : (if off + D.length >
          (CuttleFS.writeLoop fs₁.bm D D.length 0 off D.length m₀
            []).1.size then
          { (CuttleFS.writeLoop fs₁.bm D D.length 0 off D.length m₀ []).1
            with size := off + D.length }
        else (CuttleFS.writeLoop fs₁.bm D D.length 0 off D.length m₀
          []).1).offset_to_page =
          (CuttleFS.writeLoop fs₁.bm D D.length 0 off D.length m₀
            []).1.offset_to_page := by
        split <;> rfl
      refine ⟨trivial, _, Dict.lookup_set_self _ _ _, Or.inr ⟨?_, ?_⟩⟩
      · intro k hk
        obtain ⟨p, hp, hl, hg⟩ := wcov k hk
        refine ⟨p, ?_, hl, hg⟩
        dsimp only
        rw [hpag]
        exact hp
      · dsimp only
        split
        · exact Nat.le_refl _
        · next hgt => omega

/-- Claim C7, amended: after `write(path, D, off, fd)` returns
successfully, `read(path, |D|, off, fd)` returns exactly `D` whether or
not fsync calls occurred in between, provided every intervening fsync
call returned 0 (a fault-injected btrfs fsync failure can instead
revert the inode, making the read return the pre-write bytes). -/
theorem claim_C7_read_after_write (st : FS) (path : String) (D : List Nat)
    (off fd : Nat) (n : Int) (st₁ : FS) (fds : List Nat)
    (rets : List Int) (st₂ : FS)
    (hwf : WFfs st)
    (hw : CuttleFS.write st path D off fd = Except.ok (n, st₁))
    (hch : CuttleFS.fsyncChain st₁ fds = Except.ok (rets, st₂))
    (hz : ∀ r ∈ rets, r = 0) :
    ∃ st₃, CuttleFS.read st₂ path D.length off fd = Except.ok (D, st₃) := by
  unfold CuttleFS.write at hw
  rcases hfd : st.fd_info_map.lookup fd with _ | fdi
  · rw [hfd] at hw
    dsimp only at hw
    cases hw
  · rw [hfd] at hw
    dsimp only at hw
    suffices hI : ∃ m₃, st₁.fd_info_map = st.fd_info_map ∧
        st₁.page_cache.lookup fdi.1 = some m₃ ∧
        (D = [] ∨
          ((∀ k, k < D.length → ∃ p,
            m₃.offset_to_page.lookup ((off + k) / PAGE_SZ * PAGE_SZ) =
              some p ∧
            p.content.length = PAGE_SZ ∧
            p.content.getD ((off + k) % PAGE_SZ) 0 = D.getD k 0) ∧
          off + D.length ≤ m₃.size)) by
      obtain ⟨m₃, hfd₁, hm₃, hrest⟩ := hI
      obtain ⟨hfd₂, hpc₂⟩ := fsyncChain_pres fds st₁ rets st₂ hch hz
      obtain ⟨m₄, hm₄, hsz₄, hcp₄⟩ := hpc₂ fdi.1 m₃ hm₃
      have hfdst₂ : st₂.fd_info_map.lookup fd = some fdi := by
        rw [hfd₂, hfd₁]
        exact hfd
      by_cases hD : D.length = 0
      · refine ⟨st₂, ?_⟩
        have hDnil : D = [] := List.length_eq_zero.mp hD
        subst hDnil
        unfold CuttleFS.read
        rw [hfdst₂]
        dsimp only
        rw [hm₄]
        dsimp only
        rfl
      · rcases hrest with hDnil | ⟨hcov, hsz⟩
        · exact absurd (by rw [hDnil]; rfl) hD
        · have hcov₄ : ∀ k, k < D.length → ∃ p,
              m₄.offset_to_page.lookup ((off + k) / PAGE_SZ * PAGE_SZ) =
                some p ∧
              p.content.length = PAGE_SZ ∧
              p.content.getD ((off + k) % PAGE_SZ) 0 = D.getD k 0 := by
            intro k hk
            obtain ⟨p, hp, hl, hg⟩ := hcov k hk
            obtain ⟨p', hp', hc⟩ := hcp₄ _ p hp
            exact ⟨p', hp', by rw [hc]; exact hl, by rw [hc]; exact hg⟩
          have hsz₂ : off + D.length ≤ m₄.size := by
            rw [hsz₄]
            exact hsz
          have hread : (CuttleFS.readLoop st₂.bm D.length off D.length m₄
              []).1 = D := by
            rw [readLoop_covers D.length st₂.bm off D.length m₄ []
              (Nat.le_refl _)
              (fun k hk => (hcov₄ k hk).imp (fun p hp => ⟨hp.1, hp.2.1⟩))]
            simp only [List.nil_append]
            apply List.ext_getElem
            · simp
            · intro j h1 h2
              simp only [List.getElem_map, List.getElem_range]
              obtain ⟨p, hp, hl, hg⟩ := hcov₄ j h2
              unfold readByte
              rw [hp]
              dsimp only
              rw [hg]
              exact List.getD_eq_getElem D 0 h2
          have hfinal : CuttleFS.read st₂ path D.length off fd =
              Except.ok
                ((CuttleFS.readLoop st₂.bm D.length off D.length m₄ []).1,
                { st₂ with page_cache := (st₂.page_cache.set fdi.1
                  (CuttleFS.readLoop st₂.bm D.length off D.length m₄
                    []).2) }) := by
            unfold CuttleFS.read
            rw [hfdst₂]
            dsimp only
            rw [hm₄]
            dsimp only
            rw [if_neg hD]
            rw [if_neg (show ¬ off ≥ m₄.size by omega)]
            rw [show (if off + D.length ≥ m₄.size then m₄.size - off
                else D.length) = D.length by split <;> omega]
          refine ⟨{ st₂ with page_cache := (st₂.page_cache.set fdi.1
            (CuttleFS.readLoop st₂.bm D.length off D.length m₄ []).2) },
            ?_⟩
          rw [hfinal, hread]
    rcases hpc : st.page_cache.lookup fdi.1 with _ | mc
    · rw [hpc] at hw
      dsimp only at hw
      rcases hmk : CuttleFS.mkMemInode st fdi.1 path fdi.2 with e | mm
      · rw [hmk] at hw
        dsimp only at hw
        cases hw
      · rw [hmk] at hw
        dsimp only at hw
        have hWFmm : WFpages mm := by
          unfold CuttleFS.mkMemInode at hmk
          rcases hhm : st.hostMeta.lookup fdi.2 with _ | meta
          · rw [hhm] at hmk
            cases hmk
          · rw [hhm] at hmk
            dsimp only at hmk
            simp only [Except.ok.injEq] at hmk
            intro e he
            rw [← hmk] at he
            exact absurd he (List.not_mem_nil e)
        have hw' : CuttleFS.write
            { st with page_cache := st.page_cache.set fdi.1 mm } path D off
            fd = Except.ok (n, st₁) := by
          unfold CuttleFS.write
          dsimp only
          rw [hfd]
          dsimp only
          rw [Dict.lookup_set_self]
          dsimp only
          exact hw
        obtain ⟨hA, m₃, hB, hC⟩ := write_hit_main
          { st with page_cache := st.page_cache.set fdi.1 mm } mm path D off
          fd fdi n st₁ hfd (Dict.lookup_set_self _ _ _) hWFmm hwf.1 hw'
        exact ⟨m₃, hA, hB, hC⟩
    · rw [hpc] at hw
      dsimp only at hw
      have hw' : CuttleFS.write st path D off fd = Except.ok (n, st₁) := by
        unfold CuttleFS.write
        dsimp only
        rw [hfd]
        dsimp only
        rw [hpc]
        dsimp only
        exact hw
      obtain ⟨hA, m₃, hB, hC⟩ := write_hit_main st mc path D off fd fdi n
        st₁ hfd hpc (hwf.2 _ (Dict.lookup_mem hpc)) hwf.1 hw'
      exact ⟨m₃, hA, hB, hC⟩

theorem claim_C7_read_after_write_witness :
    WFfs (fxFS FsyncPolicy.ext4Ordered) ∧
    ∃ st₃, CuttleFS.read c7amSt1 fxPath 1 0 4 = Except.ok ([104], st₃) :=
  ⟨by decide, claim_C7_read_after_write (fxFS FsyncPolicy.ext4Ordered)
    fxPath [104] 0 4 c7amN c7amSt1 [] [] c7amSt1 (by decide) rfl rfl
    (by simp)⟩
